import Mathlib

/-!
# Verification of the Fort Worth residential real-estate analysis tool

This development embeds the numerical/geometric core of the repository
(`cmd/zoning.go`, `cmd/stateplane.go`, `cmd/main.go`, `cmd/distressed.go`)
into Lean 4 and proves or refutes the frozen specification claims.

Modelling conventions:

* Go `float64` values in the zoning subsystem are modelled by the type `FP`:
  either a rational number (`FP.fin q`) or one of the IEEE-754 special values
  NaN, +Inf, -Inf.  Comparisons and arithmetic follow the IEEE-754 rules for
  the special values (every comparison with NaN is false, `+Inf + -Inf = NaN`,
  `x/0 = ±Inf` for `x ≠ 0`, `0/0 = NaN`, ...).  Finite arithmetic is exact
  (no rounding, no overflow); every concrete computation appearing in a
  counterexample below is exact in binary floating point as well.
* A *finite double* is a rational of magnitude at most `maxFloatQ`
  (the exact value of `math.MaxFloat64`); `FP.isRat` is the weaker
  "not NaN and not infinite".
* String-typed numeric parcel fields (`parseDollar`, `strconv.Atoi`,
  `strconv.ParseFloat`, `time.Parse` at the analytics boundary) are modelled
  as pre-parsed `Option` fields: `none` means the string was empty or
  unparseable, `some v` means it parsed to `v`.  All analytic arithmetic in
  `main.go`/`distressed.go` is plain rational/real arithmetic.
* The external database (`db.QueryPropertyByAddress2024`) is modelled as a
  function `String → Option PropRec` passed explicitly.
-/

/-- IEEE-754 double model: NaN, the two infinities, or an exact finite value. -/
inductive FP where
  | nan : FP
  | pinf : FP
  | ninf : FP
  | fin : ℚ → FP
deriving DecidableEq, Repr

namespace FP

/-- The exact rational value of `math.MaxFloat64`. -/
def maxFloatQ : ℚ := (2 ^ 53 - 1) * 2 ^ 971

/-- IEEE `<`: any comparison involving NaN is false. -/
def lt : FP → FP → Bool
  | .fin a, .fin b => decide (a < b)
  | .fin _, .pinf => true
  | .ninf, .fin _ => true
  | .ninf, .pinf => true
  | _, _ => false

/-- IEEE `≤`: any comparison involving NaN is false. -/
def le : FP → FP → Bool
  | .fin a, .fin b => decide (a ≤ b)
  | .fin _, .pinf => true
  | .ninf, .fin _ => true
  | .ninf, .pinf => true
  | .pinf, .pinf => true
  | .ninf, .ninf => true
  | _, _ => false

/-- IEEE negation. -/
def neg : FP → FP
  | .nan => .nan
  | .pinf => .ninf
  | .ninf => .pinf
  | .fin a => .fin (-a)

/-- IEEE addition (exact on finite values). -/
def add : FP → FP → FP
  | .nan, _ => .nan
  | _, .nan => .nan
  | .pinf, .ninf => .nan
  | .ninf, .pinf => .nan
  | .pinf, _ => .pinf
  | _, .pinf => .pinf
  | .ninf, _ => .ninf
  | _, .ninf => .ninf
  | .fin a, .fin b => .fin (a + b)

/-- IEEE subtraction, `a - b = a + (-b)`. -/
def sub (a b : FP) : FP := add a (neg b)

/-- IEEE multiplication (exact on finite values); `0 * ±Inf = NaN`. -/
def mul : FP → FP → FP
  | .nan, _ => .nan
  | _, .nan => .nan
  | .pinf, .pinf => .pinf
  | .pinf, .ninf => .ninf
  | .ninf, .pinf => .ninf
  | .ninf, .ninf => .pinf
  | .pinf, .fin b => if 0 < b then .pinf else if b < 0 then .ninf else .nan
  | .ninf, .fin b => if 0 < b then .ninf else if b < 0 then .pinf else .nan
  | .fin a, .pinf => if 0 < a then .pinf else if a < 0 then .ninf else .nan
  | .fin a, .ninf => if 0 < a then .ninf else if a < 0 then .pinf else .nan
  | .fin a, .fin b => .fin (a * b)

/-- IEEE division (exact on finite values); `±Inf / ±Inf = NaN`,
`x / 0 = ±Inf` for finite `x ≠ 0` (we do not model `-0`, so `0` is `+0`),
`0 / 0 = NaN`. -/
def div : FP → FP → FP
  | .nan, _ => .nan
  | _, .nan => .nan
  | .pinf, .pinf => .nan
  | .pinf, .ninf => .nan
  | .ninf, .pinf => .nan
  | .ninf, .ninf => .nan
  | .pinf, .fin b => if b < 0 then .ninf else .pinf
  | .ninf, .fin b => if b < 0 then .pinf else .ninf
  | .fin _, .pinf => .fin 0
  | .fin _, .ninf => .fin 0
  | .fin a, .fin b =>
    if b = 0 then (if a = 0 then .nan else if 0 < a then .pinf else .ninf)
    else .fin (a / b)

/-- `v` is neither NaN nor an infinity. -/
def isRat : FP → Bool
  | .fin _ => true
  | _ => false

/-- `v` is a finite double: a rational of magnitude at most `math.MaxFloat64`. -/
def isFinite : FP → Bool
  | .fin q => decide (-maxFloatQ ≤ q ∧ q ≤ maxFloatQ)
  | _ => false

end FP

/-! ## Zoning shapefile embedding (`cmd/zoning.go`)

`zoningFeature`, `loadZoningShapefile` (its pure per-record core),
`pointInPolygon` and `findZoningAttributes`, translated statement by
statement from the source.  Attribute tables are association lists. -/

/-- `zoningFeature` from `cmd/zoning.go`: ring list (each ring a list of
(lat, lon) = (northing, easting) points), attribute table, cached bbox. -/
structure ZoningFeature where
  parts : List (List (FP × FP))
  attrs : List (String × String)
  minLat : FP
  minLon : FP
  maxLat : FP
  maxLon : FP
deriving DecidableEq, Repr

/-- One step of the bounding-box accumulation in `loadZoningShapefile`:
`(minLat, maxLat, minLon, maxLon)` updated by one point, with the exact
comparison structure of the Go loop (`if pt.Y < minLat`, `if pt.Y > maxLat`,
`if pt.X < minLon`, `if pt.X > maxLon`). -/
def bboxStep (acc : FP × FP × FP × FP) (pt : FP × FP) : FP × FP × FP × FP :=
  (if FP.lt pt.1 acc.1 then pt.1 else acc.1,
   if FP.lt acc.2.1 pt.1 then pt.1 else acc.2.1,
   if FP.lt pt.2 acc.2.2.1 then pt.2 else acc.2.2.1,
   if FP.lt acc.2.2.2 pt.2 then pt.2 else acc.2.2.2)

/-- Pure per-record core of `loadZoningShapefile`: given the rings of one
shapefile polygon (the split of the flat point list by part offsets) and its
attribute record, build the `zoningFeature`, computing the bounding box
exactly as the Go loop does (accumulators start at `math.MaxFloat64` /
`-math.MaxFloat64` and are updated with IEEE `<` / `>` comparisons over all
points of all parts in order). -/
def loadZoningFeature (parts : List (List (FP × FP)))
    (attrs : List (String × String)) : ZoningFeature :=
  let b := parts.flatten.foldl bboxStep
    (.fin FP.maxFloatQ, .fin (-FP.maxFloatQ), .fin FP.maxFloatQ, .fin (-FP.maxFloatQ))
  { parts := parts, attrs := attrs,
    minLat := b.1, maxLat := b.2.1, minLon := b.2.2.1, maxLon := b.2.2.2 }

/-- The guard of the edge-crossing test in `pointInPolygon`:
`(yi > lat) != (yj > lat)` where `pi = (yi, xi)` is the current vertex and
`pj = (yj, xj)` the previous one (`a > b` is IEEE `b < a`). -/
def edgeGuard (lat : FP) (pi pj : FP × FP) : Bool :=
  FP.lt lat pi.1 != FP.lt lat pj.1

/-- The full edge-crossing test in `pointInPolygon`:
`((yi > lat) != (yj > lat)) && (lon < (xj-xi)*(lat-yi)/(yj-yi)+xi)`. -/
def intersectTest (lat lon : FP) (pi pj : FP × FP) : Bool :=
  edgeGuard lat pi pj &&
    FP.lt lon (FP.add (FP.div (FP.mul (FP.sub pj.2 pi.2) (FP.sub lat pi.1))
      (FP.sub pj.1 pi.1)) pi.2)

/-- The (current, previous) vertex pairs visited by the `pointInPolygon` loop:
`j` starts at the last index and trails `i` by one afterwards. -/
def edgePairs (prev : FP × FP) : List (FP × FP) → List ((FP × FP) × (FP × FP))
  | [] => []
  | x :: xs => (x, prev) :: edgePairs x xs

/-- `pointInPolygon` from `cmd/zoning.go`: even-odd ray casting; `inside`
starts false and is toggled once per crossing edge. -/
def pointInPolygon (lat lon : FP) (ring : List (FP × FP)) : Bool :=
  match ring.getLast? with
  | none => false
  | some pl =>
    (edgePairs pl ring).foldl
      (fun inside e => if intersectTest lat lon e.1 e.2 then !inside else inside)
      false

/-- `findZoningAttributes` from `cmd/zoning.go`: walk the loaded features in
order; quick bbox reject, then test every ring; first hit wins.  `none`
models `(nil, false)`. -/
def findZoningAttributes (feats : List ZoningFeature) (lat lon : FP) :
    Option (List (String × String)) :=
  match feats with
  | [] => none
  | z :: rest =>
    if FP.lt lat z.minLat || FP.lt z.maxLat lat ||
       FP.lt lon z.minLon || FP.lt z.maxLon lon then
      findZoningAttributes rest lat lon
    else if z.parts.any (fun ring => pointInPolygon lat lon ring) then
      some z.attrs
    else
      findZoningAttributes rest lat lon

/-- Spec-side containment resolver, written from the specification's words:
return the attribute map of the *first polygon in load order that contains
the point*, where containment is the even-odd ray-casting test reporting the
point inside any one of the polygon's rings; `none` if no polygon contains
the point.  (No bounding-box shortcut.) -/
def findZoningAttributesSpec (feats : List ZoningFeature) (lat lon : FP) :
    Option (List (String × String)) :=
  (feats.find? (fun z => z.parts.any (fun ring => pointInPolygon lat lon ring))).map
    (fun z => z.attrs)

/-- All vertices of the ring are rational values. -/
def RingRat (ring : List (FP × FP)) : Prop :=
  ∀ v ∈ ring, FP.isRat v.1 = true ∧ FP.isRat v.2 = true

instance ringRatDecidable (ring : List (FP × FP)) : Decidable (RingRat ring) := by
  unfold RingRat
  infer_instance

/-- Concrete data for the C1 witness: one square zoning polygon. -/
def c1wRaw : List (List (List (FP × FP)) × List (String × String)) :=
  [([[(FP.fin 0, FP.fin 0), (FP.fin 0, FP.fin 10),
      (FP.fin 10, FP.fin 10), (FP.fin 10, FP.fin 0)]], [("ZONING", "R1")])]

/-- A loaded polygon with a NaN vertex: the even-odd test reports the point
(0.5, 3) inside its ring, but the cached bbox (whose min longitude ignores
the NaN vertex) rejects the query. -/
def c1cexFeature : ZoningFeature :=
  loadZoningFeature
    [[(FP.fin 0, FP.fin 5), (FP.nan, FP.nan), (FP.fin 1, FP.fin 7)]]
    [("ZONING", "A")]

/-- Concrete data for the C9 witness: one square zoning polygon. -/
def c9wRaw : List (List (List (FP × FP)) × List (String × String)) :=
  [([[(FP.fin 0, FP.fin 0), (FP.fin 0, FP.fin 4),
      (FP.fin 4, FP.fin 4), (FP.fin 4, FP.fin 0)]], [("ZONING", "C")])]

/-- A loaded polygon with NaN and -Inf vertices. -/
def c9cexFeature : ZoningFeature :=
  loadZoningFeature
    [[(FP.fin 0, FP.fin 5), (FP.fin 2, FP.nan),
      (FP.fin (3/2), FP.ninf), (FP.fin 1, FP.fin 7)]]
    [("ZONING", "B")]

/-- Concrete ring data for the C8 witness. -/
def c8wParts : List (List (FP × FP)) :=
  [[(FP.fin 1, FP.fin 2), (FP.fin 3, FP.fin 4)]]

/-! ## Parcel records and the distress scorer (`cmd/distressed.go`)

Numeric fields are pre-parsed `Option` values (`none` = empty/unparseable,
see the header).  Finite float arithmetic is modelled exactly over `ℚ`; the
decimal literals `0.70` and `1.15` of the source become `7/10` and `23/20`.
Deed dates and the evaluation instant are measured in hours, so Go's
`10*365*24*time.Hour` becomes `87600`.  The 2024 database
(`db.QueryPropertyByAddress2024`) is a function `String → Option PropRec`. -/

/-! ### Go string helpers

Lean's own `String.trim`/`String.toUpper` are opaque to the kernel, so the
Go string functions the analytics use (`strings.TrimSpace`, `strings.ToUpper`
for ASCII data, `strings.ReplaceAll w "," ""`, `strings.Fields`/`Join`,
`strings.Contains`, `strings.EqualFold`) are implemented here by structural
recursion over the character list of the string. -/

/-- `strings.TrimSpace` on a character list: drop whitespace at both ends. -/
def trimL (l : List Char) : List Char :=
  ((l.dropWhile Char.isWhitespace).reverse.dropWhile Char.isWhitespace).reverse

/-- `strings.TrimSpace`. -/
def trimS (s : String) : String := ⟨trimL s.data⟩

/-- `strings.ToUpper` (ASCII). -/
def toUpperS (s : String) : String := ⟨s.data.map Char.toUpper⟩

/-- `strings.ReplaceAll s "," ""`. -/
def removeCommas (s : String) : String := ⟨s.data.filter (fun c => c != ',')⟩

/-- Word accumulator of `strings.Fields`: split at whitespace runs. -/
def fieldsAux : List Char → List Char → List (List Char)
  | [], acc => if acc.isEmpty then [] else [acc.reverse]
  | c :: cs, acc =>
    if c.isWhitespace then
      if acc.isEmpty then fieldsAux cs [] else acc.reverse :: fieldsAux cs []
    else fieldsAux cs (c :: acc)

/-- `strings.Join ws " "` on character lists. -/
def joinSpace : List (List Char) → List Char
  | [] => []
  | [w] => w
  | w :: ws => w ++ ' ' :: joinSpace ws

/-- Is `needle` a prefix of `hay`? -/
def isPrefixL : List Char → List Char → Bool
  | [], _ => true
  | _ :: _, [] => false
  | a :: as, b :: bs => a == b && isPrefixL as bs

/-- Does `hay` contain `needle` as a contiguous substring? -/
def containsL : List Char → List Char → Bool
  | [], needle => needle.isEmpty
  | hay@(_ :: t), needle => isPrefixL needle hay || containsL t needle

/-- `types.Property`, restricted to the fields the analytics read. -/
structure PropRec where
  situsAddress : String := ""
  subdivision : String := ""
  condition : String := ""
  city : String := ""
  ownerCityState : String := ""
  arbIndicator : String := ""
  totalValue : Option ℚ := none
  improvementValue : Option ℚ := none
  livingArea : Option ℚ := none
  depreciationPercent : Option ℚ := none
  yearBuilt : Option ℤ := none
  deedDate : Option ℚ := none
  latitude : Option ℚ := none
  longitude : Option ℚ := none
deriving DecidableEq, Repr

/-- `normalize` from `cmd/main.go` (renamed: Mathlib already owns
`normalize`): upper-case the trimmed address, strip commas, collapse
whitespace runs. -/
def normalizeAddr (addr : String) : String :=
  ⟨joinSpace (fieldsAux (removeCommas (toUpperS (trimS addr))).data [])⟩

/-- `strings.Contains` (substring test). -/
def containsSub (hay needle : String) : Bool :=
  containsL hay.data needle.data

/-- `strings.EqualFold`, modelled as case-folded equality. -/
def eqFold (a b : String) : Bool := toUpperS a == toUpperS b

/-- The normalized neighborhood key `strings.ToUpper(strings.TrimSpace(p.Subdivision))`. -/
def nbOf (p : PropRec) : String := toUpperS (trimS p.subdivision)

/-- The per-group accumulator `agg` of `findDistressedInSubdivision`. -/
structure Agg where
  sumPriceSqft : ℚ
  sumYearBuilt : ℚ
  sumDepr : ℚ
  count : ℕ
deriving DecidableEq, Repr

/-- One parcel's contribution to its group accumulator (baseline pass of
`findDistressedInSubdivision`): price per sqft only when total value and
living area parse and living area is positive, year-built when it parses,
depreciation when it parses, and the count unconditionally.  A skipped
contribution (Go: the `+=` guarded by a failed parse) is written as adding
zero. -/
def aggStep (a : Agg) (p : PropRec) : Agg :=
  { sumPriceSqft := a.sumPriceSqft + (match p.totalValue, p.livingArea with
      | some total, some living => if 0 < living then total / living else 0
      | _, _ => 0),
    sumYearBuilt := a.sumYearBuilt + (match p.yearBuilt with
      | some y => (y : ℚ)
      | none => 0),
    sumDepr := a.sumDepr + (match p.depreciationPercent with
      | some d => d
      | none => 0),
    count := a.count + 1 }

/-- The members of one neighborhood group: parcels whose normalized
subdivision equals `nb`; parcels with an empty normalized subdivision are
skipped by the baseline pass, so the empty key has no group. -/
def groupMembers (props : List PropRec) (nb : String) : List PropRec :=
  if nb = "" then [] else props.filter (fun p => nbOf p == nb)

/-- The group accumulator for key `nb` (Go's `aggs[nb]` after the loop). -/
def aggFor (props : List PropRec) (nb : String) : Agg :=
  (groupMembers props nb).foldl aggStep ⟨0, 0, 0, 0⟩

/-- The per-group derived means (`stats`). -/
structure NbhdStat where
  priceSqft : ℚ
  yearBuilt : ℚ
  depr : ℚ
  count : ℕ
deriving DecidableEq, Repr

/-- Go's `nbhdStats[nb]` map lookup: present exactly when the group is
nonempty; every sum is divided by the full group count. -/
def nbhdStat (props : List PropRec) (nb : String) : Option NbhdStat :=
  let a := aggFor props nb
  if a.count = 0 then none
  else some ⟨a.sumPriceSqft / (a.count : ℚ), a.sumYearBuilt / (a.count : ℚ),
             a.sumDepr / (a.count : ℚ), a.count⟩

/-- `distressedResult`; the comma-joined `Flags` string is kept as the list
of tripped flag names, in the order the source appends them. -/
structure DistressedResult where
  prop : PropRec
  priceRatio : ℚ
  ageGap : ℚ
  deprGap : ℚ
  flags : List String
  nbhdCount : ℕ
deriving DecidableEq, Repr

/-- The physical-distress flag: condition equals "Poor" or "Fair"
(case-insensitive) or parsed depreciation ≥ 40. -/
def physFlagOf (p : PropRec) (deprVal : ℚ) : Bool :=
  eqFold p.condition "Poor" || eqFold p.condition "Fair" || decide (40 ≤ deprVal)

/-- Absentee signal: property city nonempty and owner city/state does not
contain it (upper-cased substring test). -/
def flagAbsentee (p : PropRec) : Bool :=
  !(p.city == "") && !(containsSub (toUpperS p.ownerCityState) (toUpperS p.city))

/-- Long-hold signal: deed date parses and is at least 10*365*24 hours before
`now`. -/
def flagLongHold (p : PropRec) (now : ℚ) : Bool :=
  match p.deedDate with
  | some t => decide ((87600 : ℚ) ≤ now - t)
  | none => false

/-- Tax-protest signal: trimmed ARB indicator equals "Y" case-insensitively. -/
def flagTaxProtest (p : PropRec) : Bool := eqFold (trimS p.arbIndicator) "Y"

/-- Tax-shock signal, exactly as in the source: a 2024 record for the same
normalized address exists, its total value parses, is positive, and
`total > 1.15 * prevVal`. -/
def flagTaxShock (prior : String → Option PropRec) (p : PropRec) (total : ℚ) : Bool :=
  match prior (normalizeAddr p.situsAddress) with
  | some prev =>
    match prev.totalValue with
    | some prevVal => decide (0 < prevVal) && decide ((23/20 : ℚ) * prevVal < total)
    | none => false
  | none => false

/-- The tail of the scoring pass after the structural price-ratio gate:
age/depreciation gaps, the gap-or-physical gate, the four ownership/finance
signals, the at-least-one-signal gate, and result construction. -/
def postStructural (p : PropRec) (stat : NbhdStat) (prior : String → Option PropRec)
    (now : ℚ) (total priceRatio : ℚ) : Option DistressedResult :=
  let ageGap : ℚ := match p.yearBuilt with
    | some y => stat.yearBuilt - (y : ℚ)
    | none => 0
  let deprVal : ℚ := match p.depreciationPercent with
    | some d => d
    | none => 0
  let deprGap := deprVal - stat.depr
  let physFlag := physFlagOf p deprVal
  if !(decide ((20 : ℚ) ≤ ageGap) || decide ((15 : ℚ) ≤ deprGap) || physFlag) then none
  else
    let fa := flagAbsentee p
    let fl := flagLongHold p now
    let ftp := flagTaxProtest p
    let fts := flagTaxShock prior p total
    if !(fa || fl || ftp || fts) then none
    else some
      { prop := p, priceRatio := priceRatio, ageGap := ageGap, deprGap := deprGap,
        flags := (if fa then ["absentee"] else [])
          ++ (if fl then ["longHold"] else [])
          ++ (if fts then ["taxShock"] else [])
          ++ (if ftp then ["taxProtest"] else [])
          ++ (if physFlag then ["physical"] else []),
        nbhdCount := stat.count }

/-- One iteration of the scoring loop of `findDistressedInSubdivision` for
parcel `p` (`sub` is already trimmed and upper-cased): subdivision match,
baseline lookup, group-size gate, parse gates, price-ratio gate, then
`postStructural`. -/
def evalParcel (props : List PropRec) (sub : String) (prior : String → Option PropRec)
    (now : ℚ) (p : PropRec) : Option DistressedResult :=
  if nbOf p ≠ sub then none
  else match nbhdStat props (nbOf p) with
    | none => none
    | some stat =>
      if stat.count < 10 then none
      else match p.totalValue, p.livingArea with
        | some total, some living =>
          if living = 0 then none
          else
            let priceRatio := (total / living) / stat.priceSqft
            if (7/10 : ℚ) < priceRatio then none
            else postStructural p stat prior now total priceRatio
        | _, _ => none

/-- `findDistressedInSubdivision` from `cmd/distressed.go`. -/
def findDistressedInSubdivision (sub : String) (props : List PropRec)
    (prior : String → Option PropRec) (now : ℚ) : List DistressedResult :=
  props.filterMap (evalParcel props (toUpperS (trimS sub)) prior now)

/-- Spec-side contribution of one parcel to the price-per-sqft sum: defined
only when total value and living area parse and living area is positive. -/
def priceContrib (p : PropRec) : Option ℚ :=
  match p.totalValue, p.livingArea with
  | some t, some l => if 0 < l then some (t / l) else none
  | _, _ => none

/-- Spec-side contribution of one parcel to the year-built sum. -/
def yearContrib (p : PropRec) : Option ℚ :=
  match p.yearBuilt with
  | some y => some ((y : ℤ) : ℚ)
  | none => none

/-- Spec-side contribution of one parcel to the depreciation sum. -/
def deprContrib (p : PropRec) : Option ℚ := p.depreciationPercent

/-- Spec-side mean written from the claim's words: the sum of price per sqft
over exactly the contributing parcels divided by the number of those
contributing parcels, undefined when there are none. -/
def specPriceSqftMean (props : List PropRec) (nb : String) : Option ℚ :=
  let c := (groupMembers props nb).filterMap priceContrib
  if c.length = 0 then none else some (c.sum / (c.length : ℚ))

/-- Two-parcel group: one contributes price-per-sqft 10, the other has no
parseable value at all. -/
def c4Props : List PropRec :=
  [{ subdivision := "S", totalValue := some 10, livingArea := some 1 },
   { subdivision := "S" }]

/-- Baseline comp parcel for the C5 witness subdivision. -/
def c5wBase : PropRec :=
  { subdivision := "S", totalValue := some 100, livingArea := some 1,
    yearBuilt := some 2000 }

/-- The distressed target parcel for the C5 witness. -/
def c5wTarget : PropRec :=
  { situsAddress := "5 ELM", subdivision := "S", totalValue := some (-9),
    livingArea := some (-1), yearBuilt := some 1900, arbIndicator := "Y" }

/-- Ten-parcel subdivision for the C5 witness. -/
def c5wProps : List PropRec :=
  [c5wBase, c5wBase, c5wBase, c5wBase, c5wBase, c5wBase, c5wBase, c5wBase,
   c5wBase, c5wTarget]

/-- Empty 2024 dataset for the C5 witness. -/
def c5wPrior : String → Option PropRec := fun _ => none

/-- The single result the C5 witness scenario produces. -/
def c5wResult : DistressedResult :=
  ⟨c5wTarget, 1/10, 90, 0, ["taxProtest"], 10⟩

/-- Baseline comp parcel for the C3 witness subdivision. -/
def c3wBase : PropRec :=
  { subdivision := "S", totalValue := some 100, livingArea := some 1 }

/-- Target parcel of the C3 witness: price ratio exactly 0.70. -/
def c3wTarget : PropRec :=
  { situsAddress := "3 OAK", subdivision := "S", totalValue := some (-63),
    livingArea := some (-1) }

/-- Ten-parcel subdivision for the C3 witness. -/
def c3wProps : List PropRec :=
  [c3wBase, c3wBase, c3wBase, c3wBase, c3wBase, c3wBase, c3wBase, c3wBase,
   c3wBase, c3wTarget]

/-- Empty 2024 dataset for the C3 witness. -/
def c3wPrior : String → Option PropRec := fun _ => none

/-- 2024 record with a negative parsed total value. -/
def c6Prev : PropRec := { situsAddress := "2 OAK", totalValue := some (-100) }

/-- Current parcel at the same address. -/
def c6Cur : PropRec := { situsAddress := "2 OAK" }

/-- 2024 dataset holding exactly the record for "2 OAK". -/
def c6Prior : String → Option PropRec :=
  fun a => if a = "2 OAK" then some c6Prev else none

/-! ## Undervaluation detector (`cmd/main.go`)

`distanceMiles`, `meanStd`, and `undervaluedFromCandidates` over ℝ.
`math.Atan2` is modelled by the standard piecewise `arctan` definition;
parcel coordinates/values are the pre-parsed rational fields, cast to ℝ at
use.  The universe pre-check `q.Latitude == "" …` is subsumed by the parse
checks (an empty string never parses). -/

/-- Degrees to radians (`toRad` closure in `distanceMiles`). -/
noncomputable def toRad (d : ℝ) : ℝ := d * Real.pi / 180

open Classical in

/-- `math.Atan2` (sign conventions of the principal value). -/
noncomputable def atan2 (y x : ℝ) : ℝ :=
  if 0 < x then Real.arctan (y / x)
  else if x < 0 then
    (if 0 ≤ y then Real.arctan (y / x) + Real.pi
     else Real.arctan (y / x) - Real.pi)
  else if 0 < y then Real.pi / 2
  else if y < 0 then -(Real.pi / 2)
  else 0

/-- `distanceMiles` from `cmd/main.go`: haversine great-circle distance. -/
noncomputable def distanceMiles (lat1 lon1 lat2 lon2 : ℝ) : ℝ :=
  let dLat := toRad (lat2 - lat1)
  let dLon := toRad (lon2 - lon1)
  let a := Real.sin (dLat/2) * Real.sin (dLat/2) +
    Real.cos (toRad lat1) * Real.cos (toRad lat2) *
      Real.sin (dLon/2) * Real.sin (dLon/2)
  let c := 2 * atan2 (Real.sqrt a) (Real.sqrt (1 - a))
  3958.8 * c

/-- `meanStd` from `cmd/main.go`: mean and population standard deviation. -/
noncomputable def meanStd (vals : List ℝ) : ℝ × ℝ :=
  let mean := vals.sum / (vals.length : ℝ)
  (mean,
   Real.sqrt (((vals.map (fun v => (v - mean) * (v - mean))).sum)
     / (vals.length : ℝ)))

open Classical in

/-- The neighbor collection loop of `undervaluedFromCandidates`: improvement
values of universe parcels with parseable coordinates and value within 0.1
miles (inclusive) of the candidate. -/
noncomputable def neighborVals (lat1 lon1 : ℝ) (univ : List PropRec) :
    List ℝ :=
  univ.filterMap (fun q =>
    match q.latitude, q.longitude, q.improvementValue with
    | some la2, some lo2, some v =>
      if distanceMiles lat1 lon1 (la2 : ℝ) (lo2 : ℝ) ≤ 1/10 then some (v : ℝ)
      else none
    | _, _, _ => none)

/-- `undervaluedResult`. -/
structure UndervaluedResult where
  prop : PropRec
  neighborCount : ℕ
  mean : ℝ
  stdDev : ℝ

open Classical in

/-- One iteration of the candidate loop of `undervaluedFromCandidates`. -/
noncomputable def evalCandidate (univ : List PropRec) (p : PropRec) :
    Option UndervaluedResult :=
  match p.latitude, p.longitude, p.improvementValue with
  | some la, some lo, some v =>
    let nv := neighborVals (la : ℝ) (lo : ℝ) univ
    if nv.length < 3 then none
    else
      let ms := meanStd nv
      if (v : ℝ) < ms.1 - ms.2 then some ⟨p, nv.length, ms.1, ms.2⟩
      else none
  | _, _, _ => none

/-- `undervaluedFromCandidates` from `cmd/main.go`. -/
noncomputable def undervaluedFromCandidates (candidates univ : List PropRec) :
    List UndervaluedResult :=
  candidates.filterMap (evalCandidate univ)

/-- Candidate parcel for the C2 witness. -/
def c2wCand : PropRec :=
  { latitude := some 0, longitude := some 0, improvementValue := some 5 }

/-- Comparable parcel for the C2 witness. -/
def c2wComp : PropRec :=
  { latitude := some 0, longitude := some 0, improvementValue := some 10 }

/-- Universe for the C2 witness: three identical comps. -/
def c2wUniverse : List PropRec := [c2wComp, c2wComp, c2wComp]

/-! ## State-plane projection (`cmd/stateplane.go`)

The projection constants from `init` and the per-point conversion
`wgs84ToTxNC`, over ℝ.  Note the discrepancy embedded faithfully from the
source: `init` computes `t0`, `t1`, `t2` with the ellipsoidal (NAD83
eccentricity-corrected) isometric term, while `wgs84ToTxNC` computes its
`t` as the bare spherical `tan(π/4 - φ/2)`. -/

namespace StatePlane

noncomputable section

def spFalseEasting : ℝ := 1968500.0

def spFalseNorthing : ℝ := 6561666.666666666

def phi0Deg : ℝ := 31.66666666666667

def phi1Deg : ℝ := 32.13333333333333

def phi2Deg : ℝ := 33.96666666666667

def lon0Deg : ℝ := -98.5

def ftPerMeter : ℝ := 3.2808333333333334

def semiMajorM : ℝ := 6378137.0

def e2 : ℝ := 0.00669438002290

/-- The closure `m` of `init`. -/
def mFn (phi : ℝ) : ℝ :=
  Real.cos phi / Real.sqrt (1 - e2 * Real.sin phi * Real.sin phi)

/-- The closure `t` of `init` (ellipsoidal isometric term; `math.Pow` on a
positive base is `rpow`). -/
def tFn (phi : ℝ) : ℝ :=
  Real.tan (Real.pi / 4 - phi / 2) /
    Real.rpow ((1 - Real.sqrt e2 * Real.sin phi) / (1 + Real.sqrt e2 * Real.sin phi))
      (Real.sqrt e2 / 2)

def phi1 : ℝ := phi1Deg * Real.pi / 180

def phi2 : ℝ := phi2Deg * Real.pi / 180

def phi0 : ℝ := phi0Deg * Real.pi / 180

/-- The cone constant `n` of `init`. -/
def n : ℝ := Real.log (mFn phi1 / mFn phi2) / Real.log (tFn phi1 / tFn phi2)

def aFt : ℝ := semiMajorM * ftPerMeter

/-- The scale factor `F` of `init`. -/
def F : ℝ := aFt * mFn phi1 / (n * Real.rpow (tFn phi1) n)

/-- The origin radius `rho0` of `init`. -/
def rho0 : ℝ := F * Real.rpow (tFn phi0) n

/-- `wgs84ToTxNC` from `cmd/stateplane.go`: returns `(northingFt, eastingFt)`.
Its `t` is the bare spherical `tan(π/4 - φ/2)`, with no eccentricity factor. -/
def wgs84ToTxNC (latDeg lonDeg : ℝ) : ℝ × ℝ :=
  let phi := latDeg * Real.pi / 180
  let lambda := lonDeg * Real.pi / 180
  let lambda0 := lon0Deg * Real.pi / 180
  let t := Real.tan (Real.pi / 4 - phi / 2)
  let rho := F * Real.rpow t n
  let theta := n * (lambda - lambda0)
  (rho0 - rho * Real.cos theta + spFalseNorthing,
   rho * Real.sin theta + spFalseEasting)

end

end StatePlane

/-! ## Theorems -/

/-! ## Helper lemmas about the float model and the ray-casting loop -/

namespace FP

@[simp] theorem lt_nan_left (x : FP) : lt nan x = false := by cases x <;> rfl

@[simp] theorem lt_nan_right (x : FP) : lt x nan = false := by cases x <;> rfl

@[simp] theorem lt_pinf_left (x : FP) : lt pinf x = false := by cases x <;> rfl

@[simp] theorem lt_ninf_right (x : FP) : lt x ninf = false := by cases x <;> rfl

@[simp] theorem lt_ninf_fin (a : ℚ) : lt ninf (fin a) = true := rfl

@[simp] theorem lt_fin_pinf (a : ℚ) : lt (fin a) pinf = true := rfl

@[simp] theorem lt_fin_fin (a b : ℚ) : lt (fin a) (fin b) = decide (a < b) := rfl

end FP

/-- The ray-casting accumulator step is an xor; shifting the initial value out
of the fold. -/
theorem foldl_toggle_shift {α : Type} (p : α → Bool) (l : List α) (b : Bool) :
    l.foldl (fun i e => if p e then !i else i) b
      = (b != l.foldl (fun i e => if p e then !i else i) false) := by
  induction l generalizing b with
  | nil => cases b <;> rfl
  | cons e l ih =>
    have hstep : ∀ c : Bool, (if p e then !c else c) = (c != p e) := by
      intro c; cases p e <;> cases c <;> rfl
    simp only [List.foldl_cons, hstep]
    rw [ih (b != p e), ih (false != p e)]
    have hbool : ∀ a c d : Bool, ((a != c) != d) = (a != ((false != c) != d)) := by decide
    exact hbool b (p e) _

/-- Toggle-folds with pointwise equal tests agree. -/
theorem foldl_toggle_congr {α : Type} (p q : α → Bool) (l : List α) (b : Bool)
    (h : ∀ e ∈ l, p e = q e) :
    l.foldl (fun i e => if p e then !i else i) b
      = l.foldl (fun i e => if q e then !i else i) b := by
  induction l generalizing b with
  | nil => rfl
  | cons e l ih =>
    simp only [List.foldl_cons, h e (by simp)]
    exact ih _ (fun e' he' => h e' (by simp [he']))

/-- A toggle-fold over edges whose test is everywhere false returns the
initial value. -/
theorem foldl_toggle_of_false {α : Type} (p : α → Bool) (l : List α) (b : Bool)
    (h : ∀ e ∈ l, p e = false) :
    l.foldl (fun i e => if p e then !i else i) b = b := by
  induction l generalizing b with
  | nil => rfl
  | cons e l ih =>
    simp only [List.foldl_cons, h e (by simp)]
    exact ih _ (fun e' he' => h e' (by simp [he']))

/-- Every pair visited by the `pointInPolygon` loop consists of a ring vertex
and either a ring vertex or the seed (the last vertex). -/
theorem edgePairs_mem {l : List (FP × FP)} {prev e} (h : e ∈ edgePairs prev l) :
    e.1 ∈ l ∧ (e.2 ∈ l ∨ e.2 = prev) := by
  induction l generalizing prev with
  | nil => cases h
  | cons x xs ih =>
    simp only [edgePairs, List.mem_cons] at h
    rcases h with h | h
    · subst h; exact ⟨by simp, Or.inr rfl⟩
    · obtain ⟨h1, h2⟩ := ih h
      exact ⟨by simp [h1], by rcases h2 with h2 | h2 <;> simp [h2]⟩

/-- Around a closed ring the even-odd crossing parity of the pure guard
telescopes: it equals `f prev != f (last vertex)`. -/
theorem foldl_toggle_guard_chain (f : FP × FP → Bool) (l : List (FP × FP))
    (prev : FP × FP) :
    (edgePairs prev l).foldl
      (fun i e => if (f e.1 != f e.2) then !i else i) false
      = (f prev != f (l.getLastD prev)) := by
  induction l generalizing prev with
  | nil => simp [edgePairs]
  | cons x xs ih =>
    simp only [edgePairs, List.foldl_cons, List.getLastD_cons]
    have hstep : (if (f x != f prev) then !false else false) = (f x != f prev) := by
      cases (f x != f prev) <;> rfl
    rw [hstep, foldl_toggle_shift, ih x]
    have hbool : ∀ a b c : Bool, ((a != b) != (a != c)) = (b != c) := by decide
    exact hbool (f x) (f prev) (f (xs.getLastD x))

/-- Componentwise view of the bbox fold: first component (min latitude). -/
theorem bboxFold_fst (pts : List (FP × FP)) (acc : FP × FP × FP × FP) :
    (pts.foldl bboxStep acc).1
      = pts.foldl (fun a pt => if FP.lt pt.1 a then pt.1 else a) acc.1 := by
  induction pts generalizing acc with
  | nil => rfl
  | cons p ps ih => simp only [List.foldl_cons, ih, bboxStep]

/-- Componentwise view of the bbox fold: second component (max latitude). -/
theorem bboxFold_maxLat (pts : List (FP × FP)) (acc : FP × FP × FP × FP) :
    (pts.foldl bboxStep acc).2.1
      = pts.foldl (fun a pt => if FP.lt a pt.1 then pt.1 else a) acc.2.1 := by
  induction pts generalizing acc with
  | nil => rfl
  | cons p ps ih => simp only [List.foldl_cons, ih, bboxStep]

/-- Componentwise view of the bbox fold: third component (min longitude). -/
theorem bboxFold_minLon (pts : List (FP × FP)) (acc : FP × FP × FP × FP) :
    (pts.foldl bboxStep acc).2.2.1
      = pts.foldl (fun a pt => if FP.lt pt.2 a then pt.2 else a) acc.2.2.1 := by
  induction pts generalizing acc with
  | nil => rfl
  | cons p ps ih => simp only [List.foldl_cons, ih, bboxStep]

/-- Componentwise view of the bbox fold: fourth component (max longitude). -/
theorem bboxFold_maxLon (pts : List (FP × FP)) (acc : FP × FP × FP × FP) :
    (pts.foldl bboxStep acc).2.2.2
      = pts.foldl (fun a pt => if FP.lt a pt.2 then pt.2 else a) acc.2.2.2 := by
  induction pts generalizing acc with
  | nil => rfl
  | cons p ps ih => simp only [List.foldl_cons, ih, bboxStep]

/-- The running-minimum fold over rational values: the result is rational,
bounded by the seed and by every element, and is the seed or attained. -/
theorem minFold_spec (f : FP × FP → FP) (pts : List (FP × FP)) (m : ℚ)
    (h : ∀ p ∈ pts, ∃ y, f p = FP.fin y) :
    ∃ m2 : ℚ,
      pts.foldl (fun a pt => if FP.lt (f pt) a then f pt else a) (FP.fin m)
        = FP.fin m2 ∧
      m2 ≤ m ∧ (∀ p ∈ pts, ∀ y, f p = FP.fin y → m2 ≤ y) ∧
      (m2 = m ∨ ∃ p ∈ pts, f p = FP.fin m2) := by
  induction pts generalizing m with
  | nil => exact ⟨m, rfl, le_refl m, by simp, Or.inl rfl⟩
  | cons p ps ih =>
    obtain ⟨y, hy⟩ := h p (by simp)
    have hrest : ∀ q ∈ ps, ∃ z, f q = FP.fin z := fun q hq => h q (by simp [hq])
    simp only [List.foldl_cons, hy]
    by_cases hlt : y < m
    · rw [if_pos (by simp [FP.lt, hlt])]
      obtain ⟨m2, heq, hle, hall, hatt⟩ := ih y hrest
      refine ⟨m2, heq, le_trans hle (le_of_lt hlt), ?_, ?_⟩
      · intro q hq z hz
        rcases List.mem_cons.mp hq with hq | hq
        · subst hq; rw [hy] at hz
          exact (FP.fin.injEq _ _ ▸ hz : y = z) ▸ hle
        · exact hall q hq z hz
      · rcases hatt with hatt | ⟨q, hq, hfq⟩
        · exact Or.inr ⟨p, by simp, by rw [hy, hatt]⟩
        · exact Or.inr ⟨q, by simp [hq], hfq⟩
    · rw [if_neg (by simp [FP.lt, hlt])]
      obtain ⟨m2, heq, hle, hall, hatt⟩ := ih m hrest
      refine ⟨m2, heq, hle, ?_, ?_⟩
      · intro q hq z hz
        rcases List.mem_cons.mp hq with hq | hq
        · subst hq; rw [hy] at hz
          have : y = z := FP.fin.injEq _ _ ▸ hz
          subst this
          exact le_trans hle (not_lt.mp hlt)
        · exact hall q hq z hz
      · rcases hatt with hatt | ⟨q, hq, hfq⟩
        · exact Or.inl hatt
        · exact Or.inr ⟨q, by simp [hq], hfq⟩

/-- The running-maximum fold over rational values, dual to `minFold_spec`. -/
theorem maxFold_spec (f : FP × FP → FP) (pts : List (FP × FP)) (m : ℚ)
    (h : ∀ p ∈ pts, ∃ y, f p = FP.fin y) :
    ∃ m2 : ℚ,
      pts.foldl (fun a pt => if FP.lt a (f pt) then f pt else a) (FP.fin m)
        = FP.fin m2 ∧
      m ≤ m2 ∧ (∀ p ∈ pts, ∀ y, f p = FP.fin y → y ≤ m2) ∧
      (m2 = m ∨ ∃ p ∈ pts, f p = FP.fin m2) := by
  induction pts generalizing m with
  | nil => exact ⟨m, rfl, le_refl m, by simp, Or.inl rfl⟩
  | cons p ps ih =>
    obtain ⟨y, hy⟩ := h p (by simp)
    have hrest : ∀ q ∈ ps, ∃ z, f q = FP.fin z := fun q hq => h q (by simp [hq])
    simp only [List.foldl_cons, hy]
    by_cases hlt : m < y
    · rw [if_pos (by simp [FP.lt, hlt])]
      obtain ⟨m2, heq, hle, hall, hatt⟩ := ih y hrest
      refine ⟨m2, heq, le_trans (le_of_lt hlt) hle, ?_, ?_⟩
      · intro q hq z hz
        rcases List.mem_cons.mp hq with hq | hq
        · subst hq; rw [hy] at hz
          exact (FP.fin.injEq _ _ ▸ hz : y = z) ▸ hle
        · exact hall q hq z hz
      · rcases hatt with hatt | ⟨q, hq, hfq⟩
        · exact Or.inr ⟨p, by simp, by rw [hy, hatt]⟩
        · exact Or.inr ⟨q, by simp [hq], hfq⟩
    · rw [if_neg (by simp [FP.lt, hlt])]
      obtain ⟨m2, heq, hle, hall, hatt⟩ := ih m hrest
      refine ⟨m2, heq, hle, ?_, ?_⟩
      · intro q hq z hz
        rcases List.mem_cons.mp hq with hq | hq
        · subst hq; rw [hy] at hz
          have : y = z := FP.fin.injEq _ _ ▸ hz
          subst this
          exact le_trans (not_lt.mp hlt) hle
        · exact hall q hq z hz
      · rcases hatt with hatt | ⟨q, hq, hfq⟩
        · exact Or.inl hatt
        · exact Or.inr ⟨q, by simp [hq], hfq⟩

/-- Evaluating the crossing abscissa `(xj-xi)*(lat-yi)/(yj-yi)+xi` on finite
values with a nonzero denominator. -/
theorem exprEval (lq a b c d : ℚ) (hne : c - a ≠ 0) :
    FP.add (FP.div (FP.mul (FP.sub (FP.fin d) (FP.fin b)) (FP.sub (FP.fin lq) (FP.fin a)))
      (FP.sub (FP.fin c) (FP.fin a))) (FP.fin b)
    = FP.fin ((d - b) * (lq - a) / (c - a) + b) := by
  have h2 : c + -a ≠ 0 := by rwa [← sub_eq_add_neg]
  simp only [FP.sub, FP.neg, FP.add, FP.mul, FP.div, if_neg h2]
  rw [FP.fin.injEq]
  ring

/-- Under the edge guard, the crossing abscissa lies between the edge's two
longitudes. -/
theorem exprBetween (lq a b c d : ℚ)
    (hg : (decide (lq < a) != decide (lq < c)) = true) :
    min b d ≤ (d - b) * (lq - a) / (c - a) + b ∧
    (d - b) * (lq - a) / (c - a) + b ≤ max b d := by
  have hr : 0 ≤ (lq - a) / (c - a) ∧ (lq - a) / (c - a) ≤ 1 := by
    by_cases h1 : lq < a <;> by_cases h2 : lq < c
    · simp [h1, h2] at hg
    · -- c ≤ lq < a : numerator and denominator both negative
      have hca : c - a < 0 := by linarith [not_lt.mp h2]
      have hs : lq - a < 0 := by linarith
      constructor
      · exact div_nonneg_iff.mpr (Or.inr ⟨hs.le, hca.le⟩)
      · have hne : c - a ≠ 0 := ne_of_lt hca
        have key : (lq - a) / (c - a) - 1 = (lq - c) / (c - a) := by
          field_simp
        have hnum : 0 ≤ lq - c := by linarith [not_lt.mp h2]
        have : (lq - c) / (c - a) ≤ 0 :=
          div_nonpos_iff.mpr (Or.inl ⟨hnum, hca.le⟩)
        linarith
    · -- a ≤ lq < c : numerator nonnegative, denominator positive
      have hca : 0 < c - a := by linarith [not_lt.mp h1]
      constructor
      · exact div_nonneg (by linarith [not_lt.mp h1]) hca.le
      · exact (div_le_one hca).mpr (by linarith)
    · simp [h1, h2] at hg
  obtain ⟨hr0, hr1⟩ := hr
  rw [mul_div_assoc]
  constructor
  · rcases le_total b d with hbd | hbd
    · rw [min_eq_left hbd]
      nlinarith [mul_nonneg (sub_nonneg.mpr hbd) hr0]
    · rw [min_eq_right hbd]
      nlinarith [mul_le_mul_of_nonpos_left hr1 (sub_nonpos.mpr hbd)]
  · rcases le_total b d with hbd | hbd
    · rw [max_eq_right hbd]
      nlinarith [mul_le_mul_of_nonneg_left hr1 (sub_nonneg.mpr hbd)]
    · rw [max_eq_left hbd]
      nlinarith [mul_nonpos_iff.mpr (Or.inr ⟨sub_nonpos.mpr hbd, hr0⟩)]

/-- A true edge guard forces distinct edge latitudes. -/
theorem guard_ne (lq a c : ℚ)
    (h : (decide (lq < a) != decide (lq < c)) = true) : c - a ≠ 0 := by
  intro heq
  have hac : c = a := by linarith [sub_eq_zero.mp heq]
  subst hac
  simp at h

theorem FP.isRat_exists {v : FP} (h : FP.isRat v = true) : ∃ q, v = FP.fin q := by
  cases v <;> simp [FP.isRat] at h ⊢

theorem ringRat_mem_pair {ring : List (FP × FP)} {pl : FP × FP}
    {e : (FP × FP) × (FP × FP)}
    (hrat : RingRat ring) (hl : ring.getLast? = some pl)
    (he : e ∈ edgePairs pl ring) :
    (∃ a, e.1.1 = FP.fin a) ∧ (∃ b, e.1.2 = FP.fin b) ∧
    (∃ c, e.2.1 = FP.fin c) ∧ (∃ d, e.2.2 = FP.fin d) ∧ e.1 ∈ ring ∧ e.2 ∈ ring := by
  obtain ⟨h1, h2⟩ := edgePairs_mem he
  have hpl : pl ∈ ring := List.mem_of_getLast?_eq_some hl
  have he2 : e.2 ∈ ring := by
    rcases h2 with h2 | h2
    · exact h2
    · rw [h2]; exact hpl
  obtain ⟨a, ha⟩ := FP.isRat_exists (hrat e.1 h1).1
  obtain ⟨b, hb⟩ := FP.isRat_exists (hrat e.1 h1).2
  obtain ⟨c, hc⟩ := FP.isRat_exists (hrat e.2 he2).1
  obtain ⟨d, hd⟩ := FP.isRat_exists (hrat e.2 he2).2
  exact ⟨⟨a, ha⟩, ⟨b, hb⟩, ⟨c, hc⟩, ⟨d, hd⟩, h1, he2⟩

/-- Bbox rejection case `lat < MinLat`: every guard is identically false. -/
theorem pip_false_lat_low (lq : ℚ) (lon : FP) (ring : List (FP × FP))
    (hrat : RingRat ring)
    (h : ∀ v ∈ ring, ∀ y : ℚ, v.1 = FP.fin y → lq < y) :
    pointInPolygon (FP.fin lq) lon ring = false := by
  unfold pointInPolygon
  cases hl : ring.getLast? with
  | none => rfl
  | some pl =>
    apply foldl_toggle_of_false
    intro e he
    obtain ⟨⟨a, ha⟩, _, ⟨c, hc⟩, _, he1, he2⟩ := ringRat_mem_pair hrat hl he
    have hla : lq < a := h e.1 he1 a ha
    have hlc : lq < c := h e.2 he2 c hc
    simp [intersectTest, edgeGuard, ha, hc, hla, hlc]

/-- Bbox rejection case `lat > MaxLat`: every guard is identically false. -/
theorem pip_false_lat_high (lq : ℚ) (lon : FP) (ring : List (FP × FP))
    (hrat : RingRat ring)
    (h : ∀ v ∈ ring, ∀ y : ℚ, v.1 = FP.fin y → y < lq) :
    pointInPolygon (FP.fin lq) lon ring = false := by
  unfold pointInPolygon
  cases hl : ring.getLast? with
  | none => rfl
  | some pl =>
    apply foldl_toggle_of_false
    intro e he
    obtain ⟨⟨a, ha⟩, _, ⟨c, hc⟩, _, he1, he2⟩ := ringRat_mem_pair hrat hl he
    have hla : ¬ lq < a := not_lt.mpr (le_of_lt (h e.1 he1 a ha))
    have hlc : ¬ lq < c := not_lt.mpr (le_of_lt (h e.2 he2 c hc))
    simp [intersectTest, edgeGuard, ha, hc, hla, hlc]

/-- Bbox rejection case `lon > MaxLon`: the ray starts right of every edge,
so no crossing is recorded. -/
theorem pip_false_lon_high (lq oq : ℚ) (ring : List (FP × FP))
    (hrat : RingRat ring)
    (h : ∀ v ∈ ring, ∀ x : ℚ, v.2 = FP.fin x → x < oq) :
    pointInPolygon (FP.fin lq) (FP.fin oq) ring = false := by
  unfold pointInPolygon
  cases hl : ring.getLast? with
  | none => rfl
  | some pl =>
    apply foldl_toggle_of_false
    intro e he
    obtain ⟨⟨a, ha⟩, ⟨b, hb⟩, ⟨c, hc⟩, ⟨d, hd⟩, he1, he2⟩ := ringRat_mem_pair hrat hl he
    cases hguard : edgeGuard (FP.fin lq) e.1 e.2 with
    | false => simp [intersectTest, hguard]
    | true =>
      rw [edgeGuard, ha, hc] at hguard
      simp only [FP.lt_fin_fin] at hguard
      have hne := guard_ne lq a c hguard
      have hexpr := exprEval lq a b c d hne
      have hbd := (exprBetween lq a b c d hguard).2
      have hxb : b < oq := h e.1 he1 b hb
      have hxd : d < oq := h e.2 he2 d hd
      have hmax : max b d < oq := max_lt hxb hxd
      have hlt : ¬ oq < (d - b) * (lq - a) / (c - a) + b := by
        push_neg
        linarith [le_trans hbd hmax.le]
      simp [intersectTest, ha, hb, hc, hd, hexpr, hlt]

/-- Bbox rejection case `lon < MinLon`: the ray starts left of every edge, so
each crossing test reduces to the bare guard, whose parity telescopes to
zero around the closed ring. -/
theorem pip_false_lon_low (lq oq : ℚ) (ring : List (FP × FP))
    (hrat : RingRat ring)
    (h : ∀ v ∈ ring, ∀ x : ℚ, v.2 = FP.fin x → oq < x) :
    pointInPolygon (FP.fin lq) (FP.fin oq) ring = false := by
  unfold pointInPolygon
  cases hl : ring.getLast? with
  | none => rfl
  | some pl =>
    have hcong : ∀ e ∈ edgePairs pl ring,
        intersectTest (FP.fin lq) (FP.fin oq) e.1 e.2
          = ((fun v : FP × FP => FP.lt (FP.fin lq) v.1) e.1
              != (fun v : FP × FP => FP.lt (FP.fin lq) v.1) e.2) := by
      intro e he
      obtain ⟨⟨a, ha⟩, ⟨b, hb⟩, ⟨c, hc⟩, ⟨d, hd⟩, he1, he2⟩ := ringRat_mem_pair hrat hl he
      cases hguard : edgeGuard (FP.fin lq) e.1 e.2 with
      | false =>
        rw [edgeGuard] at hguard
        simp [intersectTest, edgeGuard, hguard]
      | true =>
        have hguard2 := hguard
        rw [edgeGuard, ha, hc] at hguard2
        simp only [FP.lt_fin_fin] at hguard2
        have hne := guard_ne lq a c hguard2
        have hexpr := exprEval lq a b c d hne
        have hbd := (exprBetween lq a b c d hguard2).1
        have hxb : oq < b := h e.1 he1 b hb
        have hxd : oq < d := h e.2 he2 d hd
        have hmin : oq < min b d := lt_min hxb hxd
        have hlt : oq < (d - b) * (lq - a) / (c - a) + b := lt_of_lt_of_le hmin hbd
        rw [edgeGuard] at hguard
        simp [intersectTest, edgeGuard, ha, hb, hc, hd, hexpr, hlt, hguard]
    show (edgePairs pl ring).foldl
      (fun inside e => if intersectTest (FP.fin lq) (FP.fin oq) e.1 e.2
        then !inside else inside) false = false
    rw [foldl_toggle_congr _ _ _ _ hcong,
        foldl_toggle_guard_chain (fun v : FP × FP => FP.lt (FP.fin lq) v.1) ring pl]
    have hlast : ring.getLastD pl = pl := by
      rw [List.getLastD_eq_getLast?, hl]; rfl
    rw [hlast, bne_self_eq_false]

/-- A query point with a NaN or infinite coordinate is never reported inside
a ring whose vertices are all rational. -/
theorem pip_false_nonfinite (lat lon : FP) (ring : List (FP × FP))
    (hrat : RingRat ring)
    (hq : FP.isRat lat = false ∨ FP.isRat lon = false) :
    pointInPolygon lat lon ring = false := by
  unfold pointInPolygon
  cases hl : ring.getLast? with
  | none => rfl
  | some pl =>
    cases lat with
    | nan =>
      apply foldl_toggle_of_false
      intro e he
      simp [intersectTest, edgeGuard]
    | pinf =>
      apply foldl_toggle_of_false
      intro e he
      obtain ⟨⟨a, ha⟩, _, ⟨c, hc⟩, _, he1, he2⟩ := ringRat_mem_pair hrat hl he
      simp [intersectTest, edgeGuard, ha, hc]
    | ninf =>
      apply foldl_toggle_of_false
      intro e he
      obtain ⟨⟨a, ha⟩, _, ⟨c, hc⟩, _, he1, he2⟩ := ringRat_mem_pair hrat hl he
      simp [intersectTest, edgeGuard, ha, hc]
    | fin lq =>
      rcases hq with hq | hq
      · simp [FP.isRat] at hq
      cases lon with
      | nan =>
        apply foldl_toggle_of_false
        intro e he
        simp [intersectTest]
      | pinf =>
        apply foldl_toggle_of_false
        intro e he
        obtain ⟨⟨a, ha⟩, ⟨b, hb⟩, ⟨c, hc⟩, ⟨d, hd⟩, he1, he2⟩ := ringRat_mem_pair hrat hl he
        cases hguard : edgeGuard (FP.fin lq) e.1 e.2 with
        | false => simp [intersectTest, hguard]
        | true =>
          rw [edgeGuard, ha, hc] at hguard
          simp only [FP.lt_fin_fin] at hguard
          have hne := guard_ne lq a c hguard
          have hexpr := exprEval lq a b c d hne
          simp [intersectTest, edgeGuard, ha, hb, hc, hd, hexpr]
      | ninf =>
        have hcong : ∀ e ∈ edgePairs pl ring,
            intersectTest (FP.fin lq) FP.ninf e.1 e.2
              = ((fun v : FP × FP => FP.lt (FP.fin lq) v.1) e.1
                  != (fun v : FP × FP => FP.lt (FP.fin lq) v.1) e.2) := by
          intro e he
          obtain ⟨⟨a, ha⟩, ⟨b, hb⟩, ⟨c, hc⟩, ⟨d, hd⟩, he1, he2⟩ := ringRat_mem_pair hrat hl he
          cases hguard : edgeGuard (FP.fin lq) e.1 e.2 with
          | false =>
            rw [edgeGuard] at hguard
            simp [intersectTest, edgeGuard, hguard]
          | true =>
            have hguard2 := hguard
            rw [edgeGuard, ha, hc] at hguard2
            simp only [FP.lt_fin_fin] at hguard2
            have hne := guard_ne lq a c hguard2
            have hexpr := exprEval lq a b c d hne
            rw [edgeGuard] at hguard
            simp [intersectTest, edgeGuard, ha, hb, hc, hd, hexpr, hguard]
        show (edgePairs pl ring).foldl
          (fun inside e => if intersectTest (FP.fin lq) FP.ninf e.1 e.2
            then !inside else inside) false = false
        rw [foldl_toggle_congr _ _ _ _ hcong,
            foldl_toggle_guard_chain (fun v : FP × FP => FP.lt (FP.fin lq) v.1) ring pl]
        have hlast : ring.getLastD pl = pl := by
          rw [List.getLastD_eq_getLast?, hl]; rfl
        rw [hlast, bne_self_eq_false]
      | fin oq => simp [FP.isRat] at hq

/-- The cached min latitude is the running-minimum fold over all vertices. -/
theorem loadFeature_minLat_eq (parts : List (List (FP × FP)))
    (attrs : List (String × String)) :
    (loadZoningFeature parts attrs).minLat
      = parts.flatten.foldl (fun a pt => if FP.lt pt.1 a then pt.1 else a)
          (FP.fin FP.maxFloatQ) :=
  bboxFold_fst _ _

/-- The cached max latitude is the running-maximum fold over all vertices. -/
theorem loadFeature_maxLat_eq (parts : List (List (FP × FP)))
    (attrs : List (String × String)) :
    (loadZoningFeature parts attrs).maxLat
      = parts.flatten.foldl (fun a pt => if FP.lt a pt.1 then pt.1 else a)
          (FP.fin (-FP.maxFloatQ)) :=
  bboxFold_maxLat _ _

/-- The cached min longitude is the running-minimum fold over all vertices. -/
theorem loadFeature_minLon_eq (parts : List (List (FP × FP)))
    (attrs : List (String × String)) :
    (loadZoningFeature parts attrs).minLon
      = parts.flatten.foldl (fun a pt => if FP.lt pt.2 a then pt.2 else a)
          (FP.fin FP.maxFloatQ) :=
  bboxFold_minLon _ _

/-- The cached max longitude is the running-maximum fold over all vertices. -/
theorem loadFeature_maxLon_eq (parts : List (List (FP × FP)))
    (attrs : List (String × String)) :
    (loadZoningFeature parts attrs).maxLon
      = parts.flatten.foldl (fun a pt => if FP.lt a pt.2 then pt.2 else a)
          (FP.fin (-FP.maxFloatQ)) :=
  bboxFold_maxLon _ _

/-- If the bbox test of `findZoningAttributes` rejects a loaded polygon with
rational vertices, no ring of that polygon reports the point inside. -/
theorem loadFeature_reject_no_containment
    (parts : List (List (FP × FP))) (attrs : List (String × String)) (lat lon : FP)
    (hrat : ∀ ring ∈ parts, RingRat ring)
    (hrej : (FP.lt lat (loadZoningFeature parts attrs).minLat
          || FP.lt (loadZoningFeature parts attrs).maxLat lat
          || FP.lt lon (loadZoningFeature parts attrs).minLon
          || FP.lt (loadZoningFeature parts attrs).maxLon lon) = true) :
    (parts.any fun ring => pointInPolygon lat lon ring) = false := by
  have hflat1 : ∀ p ∈ parts.flatten, ∃ y, p.1 = FP.fin y := by
    intro p hp
    obtain ⟨ring, hring, hpr⟩ := List.mem_flatten.mp hp
    exact FP.isRat_exists (hrat ring hring p hpr).1
  have hflat2 : ∀ p ∈ parts.flatten, ∃ y, p.2 = FP.fin y := by
    intro p hp
    obtain ⟨ring, hring, hpr⟩ := List.mem_flatten.mp hp
    exact FP.isRat_exists (hrat ring hring p hpr).2
  obtain ⟨mLa, hmLa, _, hmLaAll, _⟩ :=
    minFold_spec Prod.fst parts.flatten FP.maxFloatQ hflat1
  obtain ⟨MLa, hMLa, _, hMLaAll, _⟩ :=
    maxFold_spec Prod.fst parts.flatten (-FP.maxFloatQ) hflat1
  obtain ⟨mLo, hmLo, _, hmLoAll, _⟩ :=
    minFold_spec Prod.snd parts.flatten FP.maxFloatQ hflat2
  obtain ⟨MLo, hMLo, _, hMLoAll, _⟩ :=
    maxFold_spec Prod.snd parts.flatten (-FP.maxFloatQ) hflat2
  rw [loadFeature_minLat_eq, loadFeature_maxLat_eq, loadFeature_minLon_eq,
      loadFeature_maxLon_eq, hmLa, hMLa, hmLo, hMLo] at hrej
  rw [List.any_eq_false]
  intro ring hring
  have hringRat := hrat ring hring
  have hmem : ∀ v ∈ ring, v ∈ parts.flatten := fun v hv =>
    List.mem_flatten.mpr ⟨ring, hring, hv⟩
  rw [Bool.not_eq_true]
  simp only [Bool.or_eq_true] at hrej
  rcases hrej with ((h1 | h2) | h3) | h4
  · cases lat with
    | nan => simp [FP.lt] at h1
    | pinf => simp [FP.lt] at h1
    | ninf => exact pip_false_nonfinite _ _ ring hringRat (Or.inl rfl)
    | fin lq =>
      have hlt : lq < mLa := by simpa using h1
      exact pip_false_lat_low lq lon ring hringRat
        (fun v hv y hy => lt_of_lt_of_le hlt (hmLaAll v (hmem v hv) y hy))
  · cases lat with
    | nan => simp [FP.lt] at h2
    | ninf => simp [FP.lt] at h2
    | pinf => exact pip_false_nonfinite _ _ ring hringRat (Or.inl rfl)
    | fin lq =>
      have hlt : MLa < lq := by simpa using h2
      exact pip_false_lat_high lq lon ring hringRat
        (fun v hv y hy => lt_of_le_of_lt (hMLaAll v (hmem v hv) y hy) hlt)
  · cases lon with
    | nan => simp [FP.lt] at h3
    | pinf => simp [FP.lt] at h3
    | ninf => exact pip_false_nonfinite _ _ ring hringRat (Or.inr rfl)
    | fin oq =>
      cases lat with
      | nan => exact pip_false_nonfinite _ _ ring hringRat (Or.inl rfl)
      | pinf => exact pip_false_nonfinite _ _ ring hringRat (Or.inl rfl)
      | ninf => exact pip_false_nonfinite _ _ ring hringRat (Or.inl rfl)
      | fin lq =>
        have hlt : oq < mLo := by simpa using h3
        exact pip_false_lon_low lq oq ring hringRat
          (fun v hv x hx => lt_of_lt_of_le hlt (hmLoAll v (hmem v hv) x hx))
  · cases lon with
    | nan => simp [FP.lt] at h4
    | ninf => simp [FP.lt] at h4
    | pinf => exact pip_false_nonfinite _ _ ring hringRat (Or.inr rfl)
    | fin oq =>
      cases lat with
      | nan => exact pip_false_nonfinite _ _ ring hringRat (Or.inl rfl)
      | pinf => exact pip_false_nonfinite _ _ ring hringRat (Or.inl rfl)
      | ninf => exact pip_false_nonfinite _ _ ring hringRat (Or.inl rfl)
      | fin lq =>
        have hlt : MLo < oq := by simpa using h4
        exact pip_false_lon_high lq oq ring hringRat
          (fun v hv x hx => lt_of_le_of_lt (hMLoAll v (hmem v hv) x hx) hlt)

/-- C1 (amended): for every polygon set produced by the loader *whose vertex
coordinates are all finite* and every query point, `findZoningAttributes`
returns the attribute map of the first polygon in load order that contains
the point (even-odd ray casting reporting it inside any one ring), and
`none` (`found = false`) if no loaded polygon contains it: the bounding-box
shortcut never changes the answer. -/
theorem c1_first_match_amended
    (raw : List (List (List (FP × FP)) × List (String × String)))
    (hrat : ∀ pr ∈ raw, ∀ ring ∈ pr.1, RingRat ring) (lat lon : FP) :
    findZoningAttributes (raw.map fun pr => loadZoningFeature pr.1 pr.2) lat lon
      = findZoningAttributesSpec (raw.map fun pr => loadZoningFeature pr.1 pr.2) lat lon := by
  induction raw with
  | nil => rfl
  | cons pr rest ih =>
    have hpr : ∀ ring ∈ pr.1, RingRat ring := hrat pr (by simp)
    have hrest : ∀ pr2 ∈ rest, ∀ ring ∈ pr2.1, RingRat ring :=
      fun pr2 h2 => hrat pr2 (List.mem_cons_of_mem _ h2)
    simp only [List.map_cons, findZoningAttributes, findZoningAttributesSpec]
    by_cases hrej : (FP.lt lat (loadZoningFeature pr.1 pr.2).minLat
          || FP.lt (loadZoningFeature pr.1 pr.2).maxLat lat
          || FP.lt lon (loadZoningFeature pr.1 pr.2).minLon
          || FP.lt (loadZoningFeature pr.1 pr.2).maxLon lon) = true
    · have hnone : ((loadZoningFeature pr.1 pr.2).parts.any
          fun ring => pointInPolygon lat lon ring) = false :=
        loadFeature_reject_no_containment pr.1 pr.2 lat lon hpr hrej
      rw [if_pos hrej, List.find?_cons_of_neg _ (by simp [hnone])]
      exact ih hrest
    · rw [if_neg hrej]
      cases hany : ((loadZoningFeature pr.1 pr.2).parts.any
          fun ring => pointInPolygon lat lon ring) with
      | true =>
        rw [if_pos rfl, List.find?_cons_of_pos _ (by simp [hany])]
        rfl
      | false =>
        rw [if_neg (by simp), List.find?_cons_of_neg _ (by simp [hany])]
        exact ih hrest

/-- Witness for C1 (amended) at a concrete polygon set and interior point. -/
theorem c1_witness :
    (∀ pr ∈ c1wRaw, ∀ ring ∈ pr.1, RingRat ring) ∧
    findZoningAttributes (c1wRaw.map fun pr => loadZoningFeature pr.1 pr.2)
        (FP.fin 5) (FP.fin 5)
      = findZoningAttributesSpec (c1wRaw.map fun pr => loadZoningFeature pr.1 pr.2)
        (FP.fin 5) (FP.fin 5) :=
  ⟨by decide, c1_first_match_amended c1wRaw (by decide) (FP.fin 5) (FP.fin 5)⟩

/-- Counterexample to C1 as stated: a loaded polygon contains the (finite)
query point according to the ray-casting test, yet `findZoningAttributes`
returns not-found because the bbox shortcut rejects the polygon. -/
theorem c1_counterexample :
    (c1cexFeature.parts.any fun ring =>
        pointInPolygon (FP.fin (1/2)) (FP.fin 3) ring) = true ∧
    findZoningAttributes [c1cexFeature] (FP.fin (1/2)) (FP.fin 3) = none := by
  norm_num [c1cexFeature, findZoningAttributes, loadZoningFeature, bboxStep,
    pointInPolygon, edgePairs, intersectTest, edgeGuard, List.getLast?,
    FP.lt, FP.add, FP.sub, FP.neg, FP.mul, FP.div, FP.maxFloatQ]

/-- C9 (amended): if every vertex of every loaded polygon is finite, a query
point with a NaN or infinite coordinate is resolved as "no containment". -/
theorem c9_nonfinite_query_amended
    (raw : List (List (List (FP × FP)) × List (String × String)))
    (hrat : ∀ pr ∈ raw, ∀ ring ∈ pr.1, RingRat ring) (lat lon : FP)
    (hq : FP.isRat lat = false ∨ FP.isRat lon = false) :
    findZoningAttributes (raw.map fun pr => loadZoningFeature pr.1 pr.2) lat lon
      = none := by
  induction raw with
  | nil => rfl
  | cons pr rest ih =>
    have hpr : ∀ ring ∈ pr.1, RingRat ring := hrat pr (by simp)
    have hrest : ∀ pr2 ∈ rest, ∀ ring ∈ pr2.1, RingRat ring :=
      fun pr2 h2 => hrat pr2 (List.mem_cons_of_mem _ h2)
    have hany : ((loadZoningFeature pr.1 pr.2).parts.any
        fun ring => pointInPolygon lat lon ring) = false := by
      rw [List.any_eq_false]
      intro ring hring
      rw [Bool.not_eq_true]
      exact pip_false_nonfinite lat lon ring (hpr ring hring) hq
    simp only [List.map_cons, findZoningAttributes]
    by_cases hrej : (FP.lt lat (loadZoningFeature pr.1 pr.2).minLat
          || FP.lt (loadZoningFeature pr.1 pr.2).maxLat lat
          || FP.lt lon (loadZoningFeature pr.1 pr.2).minLon
          || FP.lt (loadZoningFeature pr.1 pr.2).maxLon lon) = true
    · rw [if_pos hrej]
      exact ih hrest
    · rw [if_neg hrej, if_neg (by simp [hany])]
      exact ih hrest

/-- Witness for C9 (amended) at a concrete polygon set and a NaN latitude. -/
theorem c9_witness :
    (∀ pr ∈ c9wRaw, ∀ ring ∈ pr.1, RingRat ring) ∧
    (FP.isRat FP.nan = false ∨ FP.isRat (FP.fin 1) = false) ∧
    findZoningAttributes (c9wRaw.map fun pr => loadZoningFeature pr.1 pr.2)
        FP.nan (FP.fin 1) = none :=
  ⟨by decide, Or.inl rfl,
    c9_nonfinite_query_amended c9wRaw (by decide) FP.nan (FP.fin 1) (Or.inl rfl)⟩

/-- Counterexample to C9 as stated: with a polygon containing non-finite
vertices, the query `(0.5, -Inf)` — a non-finite query point — is reported
as *found* (the bbox does not reject it and the NaN edge breaks the
even-odd parity), not as `found = false`. -/
theorem c9_counterexample :
    FP.isRat FP.ninf = false ∧
    findZoningAttributes [c9cexFeature] (FP.fin (1/2)) FP.ninf
      = some [("ZONING", "B")] := by
  norm_num [c9cexFeature, findZoningAttributes, loadZoningFeature, bboxStep,
    pointInPolygon, edgePairs, intersectTest, edgeGuard, List.getLast?,
    FP.lt, FP.add, FP.sub, FP.neg, FP.mul, FP.div, FP.maxFloatQ, FP.isRat]

/-- C10: the divisor `(yj - yi)` of the edge-crossing expression is nonzero
whenever the guard `(yi > lat) != (yj > lat)` of `intersectTest` holds: the
guard forces `yi ≠ yj`, and then the IEEE subtraction cannot yield zero. -/
theorem c10_guard_nonzero_denominator (lat : FP) (pi pj : FP × FP)
    (h : edgeGuard lat pi pj = true) :
    pi.1 ≠ pj.1 ∧ FP.sub pj.1 pi.1 ≠ FP.fin 0 := by
  have hne : pi.1 ≠ pj.1 := by
    intro heq
    rw [edgeGuard, heq, bne_self_eq_false] at h
    cases h
  refine ⟨hne, ?_⟩
  cases hpi : pi.1 with
  | nan => cases hpj : pj.1 <;> simp [FP.sub, FP.neg, FP.add]
  | pinf => cases hpj : pj.1 <;> simp [FP.sub, FP.neg, FP.add]
  | ninf => cases hpj : pj.1 <;> simp [FP.sub, FP.neg, FP.add]
  | fin a =>
    cases hpj : pj.1 with
    | nan => simp [FP.sub, FP.neg, FP.add]
    | pinf => simp [FP.sub, FP.neg, FP.add]
    | ninf => simp [FP.sub, FP.neg, FP.add]
    | fin c =>
      have hac : a ≠ c := by
        intro hx
        exact hne (by rw [hpi, hpj, hx])
      simp only [FP.sub, FP.neg, FP.add, ne_eq, FP.fin.injEq]
      intro h0
      exact hac (by linarith)

/-- Witness for C10 at a concrete crossing edge. -/
theorem c10_witness :
    edgeGuard (FP.fin 0) (FP.fin 1, FP.fin 5) (FP.fin (-1), FP.fin 7) = true ∧
    ((FP.fin 1, FP.fin 5) : FP × FP).1 ≠ ((FP.fin (-1), FP.fin 7) : FP × FP).1 ∧
    FP.sub (FP.fin (-1)) (FP.fin 1) ≠ FP.fin 0 :=
  ⟨by decide,
    c10_guard_nonzero_denominator (FP.fin 0) (FP.fin 1, FP.fin 5)
      (FP.fin (-1), FP.fin 7) (by decide)⟩

theorem FP.isFinite_exists {v : FP} (h : FP.isFinite v = true) :
    ∃ q, v = FP.fin q ∧ -FP.maxFloatQ ≤ q ∧ q ≤ FP.maxFloatQ := by
  cases v <;> simp [FP.isFinite] at h ⊢
  exact h

/-- C8 (amended): for every polygon produced by the loader that has at least
one vertex and only finite vertices, the cached bounding box equals the true
extrema of the ring vertices: every vertex northing/easting lies within the
bounds, and each of the four bounds is attained by some vertex. -/
theorem c8_bbox_extrema_amended (parts : List (List (FP × FP)))
    (attrs : List (String × String))
    (hfin : ∀ ring ∈ parts, ∀ v ∈ ring,
      FP.isFinite v.1 = true ∧ FP.isFinite v.2 = true)
    (hne : parts.flatten ≠ []) :
    (∀ v ∈ parts.flatten,
      FP.le (loadZoningFeature parts attrs).minLat v.1 = true ∧
      FP.le v.1 (loadZoningFeature parts attrs).maxLat = true ∧
      FP.le (loadZoningFeature parts attrs).minLon v.2 = true ∧
      FP.le v.2 (loadZoningFeature parts attrs).maxLon = true) ∧
    (∃ v ∈ parts.flatten, v.1 = (loadZoningFeature parts attrs).minLat) ∧
    (∃ v ∈ parts.flatten, v.1 = (loadZoningFeature parts attrs).maxLat) ∧
    (∃ v ∈ parts.flatten, v.2 = (loadZoningFeature parts attrs).minLon) ∧
    (∃ v ∈ parts.flatten, v.2 = (loadZoningFeature parts attrs).maxLon) := by
  have hfl : ∀ p ∈ parts.flatten,
      (∃ y, p.1 = FP.fin y ∧ -FP.maxFloatQ ≤ y ∧ y ≤ FP.maxFloatQ) ∧
      (∃ x, p.2 = FP.fin x ∧ -FP.maxFloatQ ≤ x ∧ x ≤ FP.maxFloatQ) := by
    intro p hp
    obtain ⟨ring, hring, hpr⟩ := List.mem_flatten.mp hp
    exact ⟨FP.isFinite_exists (hfin ring hring p hpr).1,
           FP.isFinite_exists (hfin ring hring p hpr).2⟩
  have hfl1 : ∀ p ∈ parts.flatten, ∃ y, p.1 = FP.fin y :=
    fun p hp => ⟨((hfl p hp).1).choose, ((hfl p hp).1).choose_spec.1⟩
  have hfl2 : ∀ p ∈ parts.flatten, ∃ y, p.2 = FP.fin y :=
    fun p hp => ⟨((hfl p hp).2).choose, ((hfl p hp).2).choose_spec.1⟩
  obtain ⟨mLa, hmLa, _, hmLaAll, hmLaAtt⟩ :=
    minFold_spec Prod.fst parts.flatten FP.maxFloatQ hfl1
  obtain ⟨MLa, hMLa, _, hMLaAll, hMLaAtt⟩ :=
    maxFold_spec Prod.fst parts.flatten (-FP.maxFloatQ) hfl1
  obtain ⟨mLo, hmLo, _, hmLoAll, hmLoAtt⟩ :=
    minFold_spec Prod.snd parts.flatten FP.maxFloatQ hfl2
  obtain ⟨MLo, hMLo, _, hMLoAll, hMLoAtt⟩ :=
    maxFold_spec Prod.snd parts.flatten (-FP.maxFloatQ) hfl2
  obtain ⟨v0, hv0⟩ := List.exists_mem_of_ne_nil _ hne
  obtain ⟨⟨y0, hy0, hy0lo, hy0hi⟩, ⟨x0, hx0, hx0lo, hx0hi⟩⟩ := hfl v0 hv0
  refine ⟨?_, ?_, ?_, ?_, ?_⟩
  · intro v hv
    obtain ⟨⟨y, hy, _, _⟩, ⟨x, hx, _, _⟩⟩ := hfl v hv
    refine ⟨?_, ?_, ?_, ?_⟩
    · rw [loadFeature_minLat_eq, hmLa, hy]
      simpa [FP.le] using hmLaAll v hv y hy
    · rw [loadFeature_maxLat_eq, hMLa, hy]
      simpa [FP.le] using hMLaAll v hv y hy
    · rw [loadFeature_minLon_eq, hmLo, hx]
      simpa [FP.le] using hmLoAll v hv x hx
    · rw [loadFeature_maxLon_eq, hMLo, hx]
      simpa [FP.le] using hMLoAll v hv x hx
  · rcases hmLaAtt with h | ⟨p, hp, hfp⟩
    · have h1 : mLa ≤ y0 := hmLaAll v0 hv0 y0 hy0
      have h2 : y0 = mLa := le_antisymm (h ▸ hy0hi) h1
      exact ⟨v0, hv0, by rw [loadFeature_minLat_eq, hmLa, hy0, h2]⟩
    · exact ⟨p, hp, by rw [loadFeature_minLat_eq, hmLa]; exact hfp⟩
  · rcases hMLaAtt with h | ⟨p, hp, hfp⟩
    · have h1 : y0 ≤ MLa := hMLaAll v0 hv0 y0 hy0
      have h2 : y0 = MLa := le_antisymm h1 (h ▸ hy0lo)
      exact ⟨v0, hv0, by rw [loadFeature_maxLat_eq, hMLa, hy0, h2]⟩
    · exact ⟨p, hp, by rw [loadFeature_maxLat_eq, hMLa]; exact hfp⟩
  · rcases hmLoAtt with h | ⟨p, hp, hfp⟩
    · have h1 : mLo ≤ x0 := hmLoAll v0 hv0 x0 hx0
      have h2 : x0 = mLo := le_antisymm (h ▸ hx0hi) h1
      exact ⟨v0, hv0, by rw [loadFeature_minLon_eq, hmLo, hx0, h2]⟩
    · exact ⟨p, hp, by rw [loadFeature_minLon_eq, hmLo]; exact hfp⟩
  · rcases hMLoAtt with h | ⟨p, hp, hfp⟩
    · have h1 : x0 ≤ MLo := hMLoAll v0 hv0 x0 hx0
      have h2 : x0 = MLo := le_antisymm h1 (h ▸ hx0lo)
      exact ⟨v0, hv0, by rw [loadFeature_maxLon_eq, hMLo, hx0, h2]⟩
    · exact ⟨p, hp, by rw [loadFeature_maxLon_eq, hMLo]; exact hfp⟩

/-- Witness for C8 (amended) on a concrete two-vertex polygon. -/
theorem c8_witness :
    (∀ ring ∈ c8wParts, ∀ v ∈ ring,
      FP.isFinite v.1 = true ∧ FP.isFinite v.2 = true) ∧
    c8wParts.flatten ≠ [] ∧
    ((∀ v ∈ c8wParts.flatten,
      FP.le (loadZoningFeature c8wParts []).minLat v.1 = true ∧
      FP.le v.1 (loadZoningFeature c8wParts []).maxLat = true ∧
      FP.le (loadZoningFeature c8wParts []).minLon v.2 = true ∧
      FP.le v.2 (loadZoningFeature c8wParts []).maxLon = true) ∧
    (∃ v ∈ c8wParts.flatten, v.1 = (loadZoningFeature c8wParts []).minLat) ∧
    (∃ v ∈ c8wParts.flatten, v.1 = (loadZoningFeature c8wParts []).maxLat) ∧
    (∃ v ∈ c8wParts.flatten, v.2 = (loadZoningFeature c8wParts []).minLon) ∧
    (∃ v ∈ c8wParts.flatten, v.2 = (loadZoningFeature c8wParts []).maxLon)) :=
  ⟨by
    intro ring hring v hv
    fin_cases hring
    fin_cases hv <;> constructor <;> norm_num [FP.isFinite, FP.maxFloatQ],
  by decide,
  c8_bbox_extrema_amended c8wParts []
    (by
      intro ring hring v hv
      fin_cases hring
      fin_cases hv <;> constructor <;> norm_num [FP.isFinite, FP.maxFloatQ])
    (by decide)⟩

/-- Counterexample to C8 as stated: a loaded polygon whose single vertex has
a NaN northing; the min-latitude accumulator is never updated, so the vertex
does not lie within the cached bounds. -/
theorem c8_counterexample :
    ((loadZoningFeature [[(FP.nan, FP.fin 0)]] []).parts.flatten.all
      (fun v => FP.le (loadZoningFeature [[(FP.nan, FP.fin 0)]] []).minLat v.1))
      = false := by
  norm_num [loadZoningFeature, bboxStep, FP.le, FP.lt, FP.maxFloatQ]

theorem postStructural_prop {p : PropRec} {stat : NbhdStat}
    {prior : String → Option PropRec} {now total priceRatio : ℚ}
    {r : DistressedResult}
    (h : postStructural p stat prior now total priceRatio = some r) :
    r.prop = p := by
  simp only [postStructural] at h
  split at h
  · simp at h
  · split at h
    · simp at h
    · obtain rfl := (Option.some.inj h).symm
      rfl

theorem evalParcel_prop {props : List PropRec} {sub : String}
    {prior : String → Option PropRec} {now : ℚ} {p : PropRec}
    {r : DistressedResult}
    (h : evalParcel props sub prior now p = some r) : r.prop = p := by
  simp only [evalParcel] at h
  split at h
  · simp at h
  · split at h
    · simp at h
    · split at h
      · simp at h
      · split at h
        · split at h
          · simp at h
          · split at h
            · simp at h
            · exact postStructural_prop h
        · simp at h

/-- C3: the structural price-ratio gate of the distress scorer.  A parcel
whose `priceRatio` is exactly `0.70` continues to the subsequent tests (the
evaluation equals `postStructural`, so the outcome is decided only by the
later gap/flag gates), while a parcel with `priceRatio > 0.70` is excluded
from the results. -/
theorem c3_price_ratio_gate (props : List PropRec) (sub : String)
    (prior : String → Option PropRec) (now : ℚ) (p : PropRec)
    (stat : NbhdStat) (total living : ℚ)
    (hsub : nbOf p = toUpperS (trimS sub))
    (hstat : nbhdStat props (nbOf p) = some stat)
    (hcount : ¬ stat.count < 10)
    (htot : p.totalValue = some total) (hliv : p.livingArea = some living)
    (hliv0 : living ≠ 0) :
    ((total / living) / stat.priceSqft = 7/10 →
      evalParcel props (toUpperS (trimS sub)) prior now p
        = postStructural p stat prior now total (7/10)) ∧
    (7/10 < (total / living) / stat.priceSqft →
      ∀ r ∈ findDistressedInSubdivision sub props prior now, r.prop ≠ p) := by
  have heval : ∀ res : Option DistressedResult,
      (if (7/10 : ℚ) < (total / living) / stat.priceSqft then none
        else postStructural p stat prior now total ((total / living) / stat.priceSqft))
          = res →
      evalParcel props (toUpperS (trimS sub)) prior now p = res := by
    intro res hres
    unfold evalParcel
    rw [if_neg (by simp [hsub]), hstat]
    simp only
    rw [if_neg hcount, htot, hliv]
    simp only
    rw [if_neg hliv0]
    exact hres
  constructor
  · intro h7
    apply heval
    rw [if_neg (by rw [h7]; exact lt_irrefl _), h7]
  · intro hgt r hr hrp
    have hnone : evalParcel props (toUpperS (trimS sub)) prior now p = none :=
      heval none (by rw [if_pos hgt])
    obtain ⟨a, ha, hae⟩ := List.mem_filterMap.mp hr
    have hap : r.prop = a := evalParcel_prop hae
    rw [hrp] at hap
    rw [← hap] at hae
    rw [hnone] at hae
    cases hae

theorem aggStep_price (a : Agg) (p : PropRec) :
    (aggStep a p).sumPriceSqft = a.sumPriceSqft + (priceContrib p).getD 0 := by
  unfold aggStep priceContrib
  rcases p.totalValue with _ | t <;> rcases p.livingArea with _ | lv <;> simp
  split_ifs <;> simp

theorem aggStep_year (a : Agg) (p : PropRec) :
    (aggStep a p).sumYearBuilt = a.sumYearBuilt + (yearContrib p).getD 0 := by
  unfold aggStep yearContrib
  rcases p.yearBuilt with _ | y <;> simp

theorem aggStep_depr (a : Agg) (p : PropRec) :
    (aggStep a p).sumDepr = a.sumDepr + (deprContrib p).getD 0 := by
  unfold aggStep deprContrib
  rcases p.depreciationPercent with _ | d <;> simp

/-- Summing the defined values of a partial function equals summing its
totalization by zero. -/
theorem filterMap_sum_getD (f : PropRec → Option ℚ) (l : List PropRec) :
    (l.filterMap f).sum = (l.map (fun p => (f p).getD 0)).sum := by
  induction l with
  | nil => rfl
  | cons p l ih => rcases hf : f p <;> simp [List.filterMap_cons, hf, ih]

theorem aggFold_component (g : Agg → ℚ) (f : PropRec → Option ℚ)
    (hstep : ∀ a p, g (aggStep a p) = g a + (f p).getD 0)
    (l : List PropRec) (a : Agg) :
    g (l.foldl aggStep a) = g a + (l.filterMap f).sum := by
  rw [filterMap_sum_getD]
  induction l generalizing a with
  | nil => simp
  | cons p l ih => simp [List.foldl_cons, ih, hstep, add_assoc]

theorem aggFold_count (l : List PropRec) (a : Agg) :
    (l.foldl aggStep a).count = a.count + l.length := by
  induction l generalizing a with
  | nil => rfl
  | cons p l ih =>
    simp only [List.foldl_cons, ih, List.length_cons]
    show a.count + 1 + l.length = a.count + (l.length + 1)
    omega

/-- The group fold accumulates exactly the three partial sums over the
successfully-parsed subsets, and counts every member. -/
theorem aggFold_spec (l : List PropRec) (a : Agg) :
    (l.foldl aggStep a).sumPriceSqft = a.sumPriceSqft + (l.filterMap priceContrib).sum ∧
    (l.foldl aggStep a).sumYearBuilt = a.sumYearBuilt + (l.filterMap yearContrib).sum ∧
    (l.foldl aggStep a).sumDepr = a.sumDepr + (l.filterMap deprContrib).sum ∧
    (l.foldl aggStep a).count = a.count + l.length :=
  ⟨aggFold_component Agg.sumPriceSqft priceContrib aggStep_price l a,
   aggFold_component Agg.sumYearBuilt yearContrib aggStep_year l a,
   aggFold_component Agg.sumDepr deprContrib aggStep_depr l a,
   aggFold_count l a⟩

/-- C4 (amended): for every retained group, the derived means divide the
partial sums over the successfully-parsed subsets by the *total group member
count* (not by the contributing-subset size), and a group is retained
exactly when it has at least one member. -/
theorem c4_baseline_means_amended (props : List PropRec) (nb : String)
    (stat : NbhdStat) (h : nbhdStat props nb = some stat) :
    stat.count = (groupMembers props nb).length ∧
    0 < stat.count ∧
    stat.priceSqft = ((groupMembers props nb).filterMap priceContrib).sum
      / ((groupMembers props nb).length : ℚ) ∧
    stat.yearBuilt = ((groupMembers props nb).filterMap yearContrib).sum
      / ((groupMembers props nb).length : ℚ) ∧
    stat.depr = ((groupMembers props nb).filterMap deprContrib).sum
      / ((groupMembers props nb).length : ℚ) := by
  obtain ⟨hp, hy, hd, hc⟩ := aggFold_spec (groupMembers props nb) ⟨0, 0, 0, 0⟩
  simp only [nbhdStat] at h
  split at h
  · simp at h
  · rename_i hcount
    have ha : aggFor props nb = (groupMembers props nb).foldl aggStep ⟨0, 0, 0, 0⟩ := rfl
    rw [ha] at hcount
    obtain rfl := (Option.some.inj h).symm
    simp only [aggFor, hp, hy, hd, hc]
    simp only [zero_add] at hp hy hd hc ⊢
    rw [hc] at hcount
    exact ⟨trivial, Nat.pos_of_ne_zero hcount, trivial, trivial, trivial⟩

theorem c4_group_eval : groupMembers c4Props "S" = c4Props := by
  simp only [groupMembers, c4Props, if_neg (by decide : ¬("S" : String) = "")]
  rw [List.filter_eq_self.mpr]
  intro p hp
  fin_cases hp <;> decide

theorem c4_stat_eval : nbhdStat c4Props "S" = some ⟨5, 0, 0, 2⟩ := by
  have hagg : aggFor c4Props "S" = ⟨10, 0, 0, 2⟩ := by
    unfold aggFor
    rw [c4_group_eval]
    norm_num [c4Props, aggStep]
  unfold nbhdStat
  rw [hagg]
  norm_num

/-- Counterexample to C4 as stated: the code's derived mean divides the
contribution sum 10 by the full group size 2 (giving 5); the claimed mean
over the contributing subset is 10. -/
theorem c4_counterexample :
    (nbhdStat c4Props "S").map (fun s => s.priceSqft) = some 5 ∧
    specPriceSqftMean c4Props "S" = some 10 ∧ (5 : ℚ) ≠ 10 := by
  refine ⟨by rw [c4_stat_eval]; rfl, ?_, by norm_num⟩
  unfold specPriceSqftMean
  rw [c4_group_eval]
  norm_num [c4Props, priceContrib, List.filterMap_cons]

/-- Witness for C4 (amended) on the same two-parcel group. -/
theorem c4_witness :
    nbhdStat c4Props "S" = some ⟨5, 0, 0, 2⟩ ∧
    (NbhdStat.count ⟨5, 0, 0, 2⟩ = (groupMembers c4Props "S").length ∧
     0 < NbhdStat.count ⟨5, 0, 0, 2⟩ ∧
     NbhdStat.priceSqft ⟨5, 0, 0, 2⟩
       = ((groupMembers c4Props "S").filterMap priceContrib).sum
         / ((groupMembers c4Props "S").length : ℚ) ∧
     NbhdStat.yearBuilt ⟨5, 0, 0, 2⟩
       = ((groupMembers c4Props "S").filterMap yearContrib).sum
         / ((groupMembers c4Props "S").length : ℚ) ∧
     NbhdStat.depr ⟨5, 0, 0, 2⟩
       = ((groupMembers c4Props "S").filterMap deprContrib).sum
         / ((groupMembers c4Props "S").length : ℚ)) :=
  ⟨c4_stat_eval, c4_baseline_means_amended c4Props "S" ⟨5, 0, 0, 2⟩ c4_stat_eval⟩

theorem postStructural_gates {p : PropRec} {stat : NbhdStat}
    {prior : String → Option PropRec} {now total priceRatio : ℚ}
    {r : DistressedResult}
    (h : postStructural p stat prior now total priceRatio = some r) :
    r.nbhdCount = stat.count ∧
    ((20 : ℚ) ≤ r.ageGap ∨ (15 : ℚ) ≤ r.deprGap ∨ "physical" ∈ r.flags) ∧
    ("absentee" ∈ r.flags ∨ "longHold" ∈ r.flags ∨ "taxShock" ∈ r.flags ∨
     "taxProtest" ∈ r.flags) := by
  simp only [postStructural] at h
  split at h
  · simp at h
  · split at h
    · simp at h
    · rename_i hgate hsig
      obtain rfl := (Option.some.inj h).symm
      rw [Bool.not_eq_true', Bool.not_eq_false] at hgate hsig
      refine ⟨rfl, ?_, ?_⟩
      · rcases Bool.or_eq_true_iff.mp hgate with hg | hphys
        · rcases Bool.or_eq_true_iff.mp hg with ha | hd
          · exact Or.inl (of_decide_eq_true ha)
          · exact Or.inr (Or.inl (of_decide_eq_true hd))
        · refine Or.inr (Or.inr ?_)
          simp [hphys]
      · rcases Bool.or_eq_true_iff.mp hsig with hs | hts
        · rcases Bool.or_eq_true_iff.mp hs with hs2 | htp
          · rcases Bool.or_eq_true_iff.mp hs2 with hab | hlh
            · exact Or.inl (by simp [hab])
            · exact Or.inr (Or.inl (by simp [hlh]))
          · exact Or.inr (Or.inr (Or.inr (by simp [htp])))
        · exact Or.inr (Or.inr (Or.inl (by simp [hts])))

/-- C5: every result emitted by the distress scorer comes from a baseline
group of at least 10 members, passed the age-gap / depreciation-gap /
physical-flag gate, and tripped at least one of the four ownership/finance
signals (absentee, longHold, taxShock, taxProtest). -/
theorem c5_result_gates (sub : String) (props : List PropRec)
    (prior : String → Option PropRec) (now : ℚ) (r : DistressedResult)
    (hr : r ∈ findDistressedInSubdivision sub props prior now) :
    10 ≤ r.nbhdCount ∧
    ((20 : ℚ) ≤ r.ageGap ∨ (15 : ℚ) ≤ r.deprGap ∨ "physical" ∈ r.flags) ∧
    ("absentee" ∈ r.flags ∨ "longHold" ∈ r.flags ∨ "taxShock" ∈ r.flags ∨
     "taxProtest" ∈ r.flags) := by
  obtain ⟨a, ha, hae⟩ := List.mem_filterMap.mp hr
  simp only [evalParcel] at hae
  split at hae
  · simp at hae
  · split at hae
    · simp at hae
    · rename_i stat hstat
      split at hae
      · simp at hae
      · rename_i hcount
        split at hae
        · split at hae
          · simp at hae
          · split at hae
            · simp at hae
            · obtain ⟨hcnt, hgate, hsig⟩ := postStructural_gates hae
              exact ⟨by rw [hcnt]; exact Nat.not_lt.mp hcount, hgate, hsig⟩
        · simp at hae

theorem c5w_stat_eval : nbhdStat c5wProps "S" = some ⟨90, 1990, 0, 10⟩ := by
  have hgroup : groupMembers c5wProps "S" = c5wProps := by
    simp only [groupMembers, if_neg (by decide : ¬("S" : String) = "")]
    rw [List.filter_eq_self.mpr]
    intro p hp
    fin_cases hp <;> decide
  have hagg : aggFor c5wProps "S" = ⟨900, 19900, 0, 10⟩ := by
    unfold aggFor
    rw [hgroup]
    norm_num [c5wProps, c5wBase, c5wTarget, aggStep]
  unfold nbhdStat
  rw [hagg]
  norm_num

theorem c5w_base_eval : evalParcel c5wProps "S" c5wPrior 0 c5wBase = none := by
  have hnb : nbOf c5wBase = "S" := by decide
  unfold evalParcel
  rw [if_neg (by simp [hnb]), hnb, c5w_stat_eval]
  simp only
  rw [if_neg (by norm_num)]
  have ht : c5wBase.totalValue = some 100 := rfl
  have hl : c5wBase.livingArea = some 1 := rfl
  rw [ht, hl]
  simp only
  rw [if_neg (by norm_num), if_pos (by norm_num)]

theorem c5w_target_eval :
    evalParcel c5wProps "S" c5wPrior 0 c5wTarget = some c5wResult := by
  have hnb : nbOf c5wTarget = "S" := by decide
  unfold evalParcel
  rw [if_neg (by simp [hnb]), hnb, c5w_stat_eval]
  simp only
  rw [if_neg (by norm_num)]
  have ht : c5wTarget.totalValue = some (-9) := rfl
  have hl : c5wTarget.livingArea = some (-1) := rfl
  rw [ht, hl]
  simp only
  rw [if_neg (by norm_num), if_neg (by norm_num)]
  unfold postStructural
  have hy : c5wTarget.yearBuilt = some 1900 := rfl
  have hd : c5wTarget.depreciationPercent = none := rfl
  have hphys : physFlagOf c5wTarget 0 = false := by decide
  have hfa : flagAbsentee c5wTarget = false := by decide
  have hfl : flagLongHold c5wTarget 0 = false := rfl
  have hftp : flagTaxProtest c5wTarget = true := by decide
  have hfts : flagTaxShock c5wPrior c5wTarget (-9) = false := rfl
  rw [hy, hd]
  simp only [hphys, hfa, hfl, hftp, hfts]
  rw [if_neg (by norm_num)]
  simp only [Bool.or_false, Bool.or_true, Bool.false_or, Bool.true_or,
    Bool.not_true, if_false, Bool.false_eq_true, if_neg]
  norm_num [c5wResult, DistressedResult.mk.injEq]

/-- Witness for C5 at a concrete ten-parcel subdivision: the produced result
satisfies all three gate conclusions. -/
theorem c5_witness :
    c5wResult ∈ findDistressedInSubdivision "S" c5wProps c5wPrior 0 ∧
    (10 ≤ c5wResult.nbhdCount ∧
     ((20 : ℚ) ≤ c5wResult.ageGap ∨ (15 : ℚ) ≤ c5wResult.deprGap ∨
      "physical" ∈ c5wResult.flags) ∧
     ("absentee" ∈ c5wResult.flags ∨ "longHold" ∈ c5wResult.flags ∨
      "taxShock" ∈ c5wResult.flags ∨ "taxProtest" ∈ c5wResult.flags)) := by
  have hsub : toUpperS (trimS "S") = "S" := by decide
  have hmem : c5wResult ∈ findDistressedInSubdivision "S" c5wProps c5wPrior 0 := by
    unfold findDistressedInSubdivision
    rw [hsub]
    show c5wResult ∈ List.filterMap (evalParcel c5wProps "S" c5wPrior 0)
      [c5wBase, c5wBase, c5wBase, c5wBase, c5wBase, c5wBase, c5wBase, c5wBase,
       c5wBase, c5wTarget]
    simp only [List.filterMap_cons, c5w_base_eval, c5w_target_eval,
      List.filterMap_nil]
    simp
  exact ⟨hmem, c5_result_gates "S" c5wProps c5wPrior 0 c5wResult hmem⟩

theorem c3w_stat_eval : nbhdStat c3wProps "S" = some ⟨90, 0, 0, 10⟩ := by
  have hgroup : groupMembers c3wProps "S" = c3wProps := by
    simp only [groupMembers, if_neg (by decide : ¬("S" : String) = "")]
    rw [List.filter_eq_self.mpr]
    intro p hp
    fin_cases hp <;> decide
  have hagg : aggFor c3wProps "S" = ⟨900, 0, 0, 10⟩ := by
    unfold aggFor
    rw [hgroup]
    norm_num [c3wProps, c3wBase, c3wTarget, aggStep]
  unfold nbhdStat
  rw [hagg]
  norm_num

/-- Witness for C3 at a parcel whose price ratio is exactly 0.70. -/
theorem c3_witness :
    nbOf c3wTarget = toUpperS (trimS "S") ∧
    nbhdStat c3wProps (nbOf c3wTarget) = some ⟨90, 0, 0, 10⟩ ∧
    ¬ (NbhdStat.count ⟨90, 0, 0, 10⟩) < 10 ∧
    c3wTarget.totalValue = some (-63) ∧
    c3wTarget.livingArea = some (-1) ∧
    ((-1 : ℚ) ≠ 0) ∧
    (((-63 : ℚ) / (-1)) / NbhdStat.priceSqft ⟨90, 0, 0, 10⟩ = 7/10 →
      evalParcel c3wProps (toUpperS (trimS "S")) c3wPrior 0 c3wTarget
        = postStructural c3wTarget ⟨90, 0, 0, 10⟩ c3wPrior 0 (-63) (7/10)) ∧
    (7/10 < ((-63 : ℚ) / (-1)) / NbhdStat.priceSqft ⟨90, 0, 0, 10⟩ →
      ∀ r ∈ findDistressedInSubdivision "S" c3wProps c3wPrior 0,
        r.prop ≠ c3wTarget) := by
  have h1 : nbOf c3wTarget = toUpperS (trimS "S") := by decide
  have h2 : nbhdStat c3wProps (nbOf c3wTarget) = some ⟨90, 0, 0, 10⟩ := by
    have hx : nbOf c3wTarget = "S" := by decide
    rw [hx]
    exact c3w_stat_eval
  have hmain := c3_price_ratio_gate c3wProps "S" c3wPrior 0 c3wTarget
    ⟨90, 0, 0, 10⟩ (-63) (-1) h1 h2 (by norm_num) rfl rfl (by norm_num)
  exact ⟨h1, h2, by norm_num, rfl, rfl, by norm_num, hmain.1, hmain.2⟩

/-- C6 (amended): the tax-shock flag is set iff a prior-period record for
the same normalized address exists, its total value parses to a *strictly
positive* number, and that value scaled by 1.15 is strictly less than the
parcel's current total value. -/
theorem c6_taxshock_amended (prior : String → Option PropRec) (p : PropRec)
    (total : ℚ) :
    flagTaxShock prior p total = true ↔
    ∃ prev prevVal, prior (normalizeAddr p.situsAddress) = some prev ∧
      prev.totalValue = some prevVal ∧ 0 < prevVal ∧
      (23/20 : ℚ) * prevVal < total := by
  unfold flagTaxShock
  cases hp : prior (normalizeAddr p.situsAddress) with
  | none => simp [hp]
  | some prev =>
    cases hv : prev.totalValue with
    | none => simp [hp, hv]
    | some pv =>
      simp only [hp, hv, Bool.and_eq_true, decide_eq_true_eq,
        Option.some.injEq]
      constructor
      · rintro ⟨h1, h2⟩
        exact ⟨prev, pv, rfl, hv, h1, h2⟩
      · rintro ⟨prev2, pv2, hprev, hval, h1, h2⟩
        obtain rfl := hprev
        rw [hv] at hval
        obtain rfl := Option.some.inj hval
        exact ⟨h1, h2⟩

/-- Counterexample to C6 as stated: the prior record exists and its total
value scaled by 1.15 is strictly less than the current total value 50, yet
the flag is not set (the code additionally requires the prior value to be
positive). -/
theorem c6_counterexample :
    c6Prior (normalizeAddr c6Cur.situsAddress) = some c6Prev ∧
    c6Prev.totalValue = some (-100) ∧
    ((23/20 : ℚ) * (-100) < 50) ∧
    flagTaxShock c6Prior c6Cur 50 = false := by
  have hn : normalizeAddr c6Cur.situsAddress = "2 OAK" := by decide
  refine ⟨by rw [hn]; rfl, rfl, by norm_num, ?_⟩
  unfold flagTaxShock
  rw [hn]
  show (match c6Prior "2 OAK" with
    | some prev => match prev.totalValue with
      | some prevVal => decide (0 < prevVal) && decide ((23/20 : ℚ) * prevVal < 50)
      | none => false
    | none => false) = false
  have hpr : c6Prior "2 OAK" = some c6Prev := rfl
  rw [hpr]
  show (decide ((0 : ℚ) < -100) && decide ((23/20 : ℚ) * (-100) < 50)) = false
  norm_num

/-- C2: a candidate with parseable coordinates and improvement value `v` is
returned iff it has at least 3 qualifying neighbors (universe parcels with
parseable coordinates and value within 0.1 miles inclusive) and `v` is
strictly below the neighbors' mean minus their population standard
deviation; with fewer than 3 neighbors it is never returned. -/
theorem c2_undervalued_iff (candidates univ : List PropRec) (p : PropRec)
    (la lo v : ℚ) (hp : p ∈ candidates)
    (hla : p.latitude = some la) (hlo : p.longitude = some lo)
    (hv : p.improvementValue = some v) :
    (∃ r ∈ undervaluedFromCandidates candidates univ, r.prop = p) ↔
    (3 ≤ (neighborVals (la : ℝ) (lo : ℝ) univ).length ∧
     (v : ℝ) < (meanStd (neighborVals (la : ℝ) (lo : ℝ) univ)).1
       - (meanStd (neighborVals (la : ℝ) (lo : ℝ) univ)).2) := by
  have hprop : ∀ a r, evalCandidate univ a = some r → r.prop = a := by
    intro a r h
    simp only [evalCandidate] at h
    split at h
    · split at h
      · simp at h
      · split at h
        · obtain rfl := (Option.some.inj h).symm
          rfl
        · simp at h
    · simp at h
  constructor
  · rintro ⟨r, hr, hrp⟩
    obtain ⟨a, ha, hae⟩ := List.mem_filterMap.mp hr
    obtain rfl : a = p := by rw [← hrp, hprop a r hae]
    simp only [evalCandidate, hla, hlo, hv] at hae
    split at hae
    · simp at hae
    · split at hae
      · rename_i h3 hlt
        exact ⟨Nat.not_lt.mp h3, hlt⟩
      · simp at hae
  · rintro ⟨h3, hlt⟩
    refine ⟨⟨p, (neighborVals (la : ℝ) (lo : ℝ) univ).length,
      (meanStd (neighborVals (la : ℝ) (lo : ℝ) univ)).1,
      (meanStd (neighborVals (la : ℝ) (lo : ℝ) univ)).2⟩, ?_, rfl⟩
    apply List.mem_filterMap.mpr
    refine ⟨p, hp, ?_⟩
    simp only [evalCandidate, hla, hlo, hv]
    rw [if_neg (Nat.not_lt.mpr h3), if_pos hlt]

/-- Witness for C2 at a concrete candidate and universe. -/
theorem c2_witness :
    c2wCand ∈ [c2wCand] ∧ c2wCand.latitude = some 0 ∧
    c2wCand.longitude = some 0 ∧ c2wCand.improvementValue = some 5 ∧
    ((∃ r ∈ undervaluedFromCandidates [c2wCand] c2wUniverse, r.prop = c2wCand) ↔
     (3 ≤ (neighborVals ((0 : ℚ) : ℝ) ((0 : ℚ) : ℝ) c2wUniverse).length ∧
      ((5 : ℚ) : ℝ) <
        (meanStd (neighborVals ((0 : ℚ) : ℝ) ((0 : ℚ) : ℝ) c2wUniverse)).1
        - (meanStd (neighborVals ((0 : ℚ) : ℝ) ((0 : ℚ) : ℝ) c2wUniverse)).2)) :=
  ⟨by simp, rfl, rfl, rfl,
    c2_undervalued_iff [c2wCand] c2wUniverse c2wCand 0 0 5 (by simp) rfl rfl rfl⟩

/-- C7 (evaluation of the code at the origin): the easting is exactly
`falseEasting` (the polar angle vanishes), but the northing equals
`falseNorthing + (rho0 - F·tan(π/4 - φ0/2)^n)`: the residual compares
`rho0 = F·tFn(φ0)^n` (ellipsoidal `t`) against the projection's spherical
`tan` term, so the northing is the false northing only if the two isometric
terms agree — which they do not for a nonzero eccentricity. -/
theorem c7_origin_projection :
    (StatePlane.wgs84ToTxNC StatePlane.phi0Deg StatePlane.lon0Deg).2
      = StatePlane.spFalseEasting ∧
    (StatePlane.wgs84ToTxNC StatePlane.phi0Deg StatePlane.lon0Deg).1
      = StatePlane.spFalseNorthing +
        (StatePlane.rho0 - StatePlane.F *
          Real.rpow (Real.tan (Real.pi / 4
            - (StatePlane.phi0Deg * Real.pi / 180) / 2)) StatePlane.n) := by
  have htheta : StatePlane.n * (StatePlane.lon0Deg * Real.pi / 180
      - StatePlane.lon0Deg * Real.pi / 180) = 0 := by ring
  unfold StatePlane.wgs84ToTxNC
  constructor
  · show StatePlane.F *
        Real.rpow (Real.tan (Real.pi / 4
          - (StatePlane.phi0Deg * Real.pi / 180) / 2)) StatePlane.n *
        Real.sin (StatePlane.n * (StatePlane.lon0Deg * Real.pi / 180
          - StatePlane.lon0Deg * Real.pi / 180)) + StatePlane.spFalseEasting
      = StatePlane.spFalseEasting
    rw [htheta, Real.sin_zero, mul_zero, zero_add]
  · show StatePlane.rho0 - StatePlane.F *
        Real.rpow (Real.tan (Real.pi / 4
          - (StatePlane.phi0Deg * Real.pi / 180) / 2)) StatePlane.n *
        Real.cos (StatePlane.n * (StatePlane.lon0Deg * Real.pi / 180
          - StatePlane.lon0Deg * Real.pi / 180)) + StatePlane.spFalseNorthing
      = StatePlane.spFalseNorthing +
        (StatePlane.rho0 - StatePlane.F *
          Real.rpow (Real.tan (Real.pi / 4
            - (StatePlane.phi0Deg * Real.pi / 180) / 2)) StatePlane.n)
    rw [htheta, Real.cos_zero, mul_one]
    ring
